import Mathlib

/-!
# Verification of the xp-util object/interface/bus runtime

A shallow embedding of the core of the `xputil` component model
(`impl_intfs.h` / `impl_intfs.cpp` together with `intf_defs.h`):
reference-counted objects (`TRefObj`), extensible interfaces
(`TInterfaceEx`), and the interface bus (`TBus`) with its
connect / disconnect / query-propagation / teardown algorithms.

Objects live in a heap indexed by object ids (modelling C++ object
identity / pointers).  Operations are modelled as fuel-indexed state
transformers returning `Res`: `ok` carries the resulting value and the
updated heap (plus, for the teardown family, an event trace recording
each `finish()` invocation, which is observable in the source through
the subclass `onClear` hook); `err` models a thrown C++ exception
(`std::logic_error`), and `nofuel` means the fuel bound was exhausted
before the computation completed.
-/

set_option maxHeartbeats 1600000

namespace XpUtil

/-- Interface-id of `IInterface`; the concrete hash value is pinned by the
repository's `intf-id-test` backward-compatibility test. -/
def iidInterface : Nat := 0xdc1bb37e5ceab0cb

/-- Interface-id of `IInterfaceEx` (value pinned by `intf-id-test`). -/
def iidInterfaceEx : Nat := 0x3137d9e333ec18e0

/-- Interface-id of `IBus` (value pinned by `intf-id-test`). -/
def iidBus : Nat := 0xddde57c5e192042a

/-- Is `i` one of the three reserved root identifiers? -/
def isRootIID (i : Nat) : Bool :=
  i == iidBus || i == iidInterfaceEx || i == iidInterface

/-- State of a plain extensible interface object (`TInterfaceEx<T>`):
its declared interface id `T::iid`, the weak host-bus back-reference
`_bus`, the `_cleared` flag, and the intrusive reference count `_count`
(from `TRefObj`). -/
structure IntfObj where
  iid : Nat
  bus : Option Nat
  cleared : Bool
  rc : Nat
deriving DecidableEq

/-- `TBus::_status`. -/
inductive Status where
  | active
  | clearing
  | cleared
deriving DecidableEq

/-- State of a `TBus` object: `_level`, the inherited `TInterfaceEx`
fields (`_bus` back-reference and `_cleared` flag), the slot vector
`_intfs` of (order, interface) pairs, the level-sorted strong
subordinate vector `_buses`, the weak sibling collection `_siblings`
(a set in the source; modelled as a duplicate-free list in insertion
order), `_status`, and the reference count. -/
structure BusObj where
  level : Int
  busRef : Option Nat
  cleared : Bool
  intfs : List (Int × Nat)
  buses : List Nat
  siblings : List Nat
  status : Status
  rc : Nat
deriving DecidableEq

/-- A heap object: either a plain extensible interface or a bus. -/
inductive Obj where
  | intf (o : IntfObj)
  | bus (b : BusObj)
deriving DecidableEq

/-- The heap: a finite map from object ids to objects, as an
association list. -/
abbrev Heap := List (Nat × Obj)

/-- Result of an operation: success (with updated state), a thrown
`std::logic_error`, or fuel exhaustion. -/
inductive Res (α : Type) where
  | ok (a : α)
  | err (msg : String)
  | nofuel
deriving DecidableEq

def apiClosedMsg : String := "api already disabled!"

def underflowMsg : String := "ref-count is already 0."

def hostBusMsg : String := "hosting bus already exists!"

def danglingMsg : String := "dangling object id"

def notBusMsg : String := "object is not a bus"

/-- Heap lookup (first matching key). -/
def hlookup (h : Heap) (x : Nat) : Option Obj :=
  match h with
  | [] => none
  | (k, o) :: t => if k = x then some o else hlookup t x

/-- Heap update: replace the object stored at key `x`. -/
def hset (h : Heap) (x : Nat) (o : Obj) : Heap :=
  match h with
  | [] => []
  | (k, p) :: t => if k = x then (k, o) :: hset t x o else (k, p) :: hset t x o

/-- Remove the object at key `x` (object destruction via `delete this`). -/
def hremove (h : Heap) (x : Nat) : Heap :=
  h.filter (fun e => e.1 != x)

/-- Reference count of an object. -/
def rcOf : Obj → Nat
  | Obj.intf o => o.rc
  | Obj.bus b => b.rc

/-- Replace the reference count of an object. -/
def setRc : Obj → Nat → Obj
  | Obj.intf o, n => Obj.intf { o with rc := n }
  | Obj.bus b, n => Obj.bus { b with rc := n }

/-- `IRefObj::ref()` on a valid object id: increment the count. -/
def refStep (h : Heap) (x : Nat) : Heap :=
  match hlookup h x with
  | some o => hset h x (setRc o (rcOf o + 1))
  | none => h

/-- Sequencing of fallible steps (exceptions and fuel exhaustion
propagate). -/
def bindH {α β : Type} (r : Res α) (f : α → Res β) : Res β :=
  match r with
  | Res.ok a => f a
  | Res.err e => Res.err e
  | Res.nofuel => Res.nofuel

/-- Sequencing in the teardown family: heaps are threaded and the
`finish()`-event traces of the two stages are concatenated. -/
def tbind (r : Res (Heap × List Nat)) (f : Heap → Res (Heap × List Nat)) :
    Res (Heap × List Nat) :=
  match r with
  | Res.ok (h, t) =>
    match f h with
    | Res.ok (h', t') => Res.ok (h', t ++ t')
    | Res.err e => Res.err e
    | Res.nofuel => Res.nofuel
  | Res.err e => Res.err e
  | Res.nofuel => Res.nofuel

/-- Lift a trace-free heap transformer into the traced family. -/
def liftT (r : Res Heap) : Res (Heap × List Nat) :=
  match r with
  | Res.ok h => Res.ok (h, [])
  | Res.err e => Res.err e
  | Res.nofuel => Res.nofuel

/-- `TInterfaceEx::setBus` / inherited by `TBus`: attach or detach the
weak host reference; throws if attaching while a (different or equal)
non-null host is already set. -/
def setBusF (h : Heap) (x : Nat) (b : Option Nat) : Res Heap :=
  match hlookup h x with
  | some (Obj.intf o) =>
    if o.bus.isSome && b.isSome then Res.err hostBusMsg
    else Res.ok (hset h x (Obj.intf { o with bus := b }))
  | some (Obj.bus bo) =>
    if bo.busRef.isSome && b.isSome then Res.err hostBusMsg
    else Res.ok (hset h x (Obj.bus { bo with busRef := b }))
  | none => Res.err danglingMsg

/-- Set insertion for the sibling collection (`std::set::insert`
deduplicates; iteration order is modelled as insertion order). -/
def addUniq (l : List Nat) (b : Nat) : List Nat :=
  if b ∈ l then l else l ++ [b]

/-- `TBus::addSiblingBus`: guarded by `assert_api_not_closed`, then a
set insert. -/
def addSiblingBusF (h : Heap) (x target : Nat) : Res Heap :=
  match hlookup h x with
  | some (Obj.bus bo) =>
    if bo.status = Status.cleared then Res.err apiClosedMsg
    else Res.ok (hset h x (Obj.bus { bo with siblings := addUniq bo.siblings target }))
  | _ => Res.err notBusMsg

/-- `TBus::removeSiblingBus`: guarded by `assert_api_not_closed`, then a
set erase. -/
def removeSiblingBusF (h : Heap) (x target : Nat) : Res Heap :=
  match hlookup h x with
  | some (Obj.bus bo) =>
    if bo.status = Status.cleared then Res.err apiClosedMsg
    else Res.ok (hset h x (Obj.bus { bo with siblings := bo.siblings.filter (fun s => s != target) }))
  | _ => Res.err notBusMsg

/-- `TRefObj::unrefNoDelete`: throws on a zero count; otherwise
decrements and never destroys. -/
def unrefNoDeleteF (h : Heap) (x : Nat) : Res Heap :=
  match hlookup h x with
  | some o =>
    if rcOf o = 0 then Res.err underflowMsg
    else Res.ok (hset h x (setRc o (rcOf o - 1)))
  | none => Res.err danglingMsg

/-- Modify the bus record stored at `x`. -/
def modifyBus (h : Heap) (x : Nat) (f : BusObj → BusObj) : Res Heap :=
  match hlookup h x with
  | some (Obj.bus bo) => Res.ok (hset h x (Obj.bus (f bo)))
  | _ => Res.err notBusMsg

/-- First-found scan used by `TBus::queryInterfaceEx` over each of its
three collections; `resolve` skips entries already in the visited set
before delegating. -/
def scanQ (q : Heap → Nat → List Nat → Res (Option Nat × Heap × List Nat)) :
    Heap → List Nat → List Nat → Res (Option Nat × Heap × List Nat)
  | h, [], v => Res.ok (none, h, v)
  | h, y :: l, v =>
    if y ∈ v then scanQ q h l v
    else
      match q h y v with
      | Res.ok (none, h', v') => scanQ q h' l v'
      | r => r

/-- `queryInterfaceEx(iid, retIntf, qst)` for both object kinds.

For a plain `TInterfaceEx<T>`: match `T::iid` or a root id (ref self,
found); otherwise add self to the visited set and delegate to the host
bus when present and not yet visited.

For a `TBus`: match the three root ids (ref self, found) — this check
precedes `assert_api_not_closed`; otherwise assert the API is not
closed, add self to the visited set, and scan slots, then siblings,
then subordinate buses, returning the first found result. -/
def queryExF : Nat → Heap → Nat → Nat → List Nat → Res (Option Nat × Heap × List Nat)
  | 0, _, _, _, _ => Res.nofuel
  | fuel+1, h, x, iid, v =>
    match hlookup h x with
    | some (Obj.intf o) =>
      if iid = o.iid ∨ iid = iidInterfaceEx ∨ iid = iidInterface then
        Res.ok (some x, hset h x (Obj.intf { o with rc := o.rc + 1 }), v)
      else
        match o.bus with
        | some b =>
          if b ∈ v ++ [x] then Res.ok (none, h, v ++ [x])
          else queryExF fuel h b iid (v ++ [x])
        | none => Res.ok (none, h, v ++ [x])
    | some (Obj.bus bo) =>
      if iid = iidBus ∨ iid = iidInterfaceEx ∨ iid = iidInterface then
        Res.ok (some x, hset h x (Obj.bus { bo with rc := bo.rc + 1 }), v)
      else if bo.status = Status.cleared then Res.err apiClosedMsg
      else
        match scanQ (fun hh y vv => queryExF fuel hh y iid vv) h (bo.intfs.map Prod.snd) (v ++ [x]) with
        | Res.ok (none, h1, v1) =>
          match scanQ (fun hh y vv => queryExF fuel hh y iid vv) h1 bo.siblings v1 with
          | Res.ok (none, h2, v2) => scanQ (fun hh y vv => queryExF fuel hh y iid vv) h2 bo.buses v2
          | r => r
        | r => r
    | none => Res.err danglingMsg

/-- First non-null scan used by `TBus::findFirstBusByLevel`. -/
def scanFBL (f : Nat → Res (Option Nat)) : List Nat → Res (Option Nat)
  | [] => Res.ok none
  | y :: l =>
    match f y with
    | Res.ok none => scanFBL f l
    | r => r

/-- `TBus::findFirstBusByLevel`: guarded by `assert_api_not_closed`;
levels below this bus are unreachable; an exact match returns self;
otherwise search subordinate buses, then sibling buses, recursively —
note the source has no visited set here. -/
def findFBL : Nat → Heap → Nat → Int → Res (Option Nat)
  | 0, _, _, _ => Res.nofuel
  | fuel+1, h, x, lvl =>
    match hlookup h x with
    | some (Obj.bus bo) =>
      if bo.status = Status.cleared then Res.err apiClosedMsg
      else if lvl < bo.level then Res.ok none
      else if bo.level = lvl then Res.ok (some x)
      else
        match scanFBL (fun y => findFBL fuel h y lvl) bo.buses with
        | Res.ok none => scanFBL (fun y => findFBL fuel h y lvl) bo.siblings
        | r => r
    | _ => Res.err notBusMsg

/-- Sequential fold of a trace-free fallible step over a list of ids. -/
def seqFoldP (step : Heap → Nat → Res Heap) : Heap → List Nat → Res Heap
  | h, [] => Res.ok h
  | h, y :: l => bindH (step h y) (fun h' => seqFoldP step h' l)

/-- Sequential fold of a traced step over a list of ids. -/
def seqFoldT (step : Heap → Nat → Res (Heap × List Nat)) :
    Heap → List Nat → Res (Heap × List Nat)
  | h, [] => Res.ok (h, [])
  | h, y :: l => tbind (step h y) (fun h' => seqFoldT step h' l)

/-- One teardown pass of `TBus::reset`: walk the (already reversed)
slot list and `finish()` exactly the slots whose declared order equals
the current pass number. -/
def passInner (fin : Heap → Nat → Res (Heap × List Nat)) (pass : Int) :
    Heap → List (Int × Nat) → Res (Heap × List Nat)
  | h, [] => Res.ok (h, [])
  | h, (ord, i) :: l =>
    if ord = pass then tbind (fin h i) (fun h' => passInner fin pass h' l)
    else passInner fin pass h l

/-- The three explicit pass-ordered teardown loops of `TBus::reset`
(`max_clear_pass = 3`), each iterating the slot vector in reverse. -/
def passLoop (fin : Heap → Nat → Res (Heap × List Nat))
    (l : List (Int × Nat)) (h : Heap) : Res (Heap × List Nat) :=
  tbind (passInner fin 0 h l.reverse) (fun h1 =>
  tbind (passInner fin 1 h1 l.reverse) (fun h2 =>
  passInner fin 2 h2 l.reverse))

/-- Slot-release loop of `TBus::reset`: for every slot, clear its
host-bus back-reference and `unref()` it. -/
def slotRelease (unr : Heap → Nat → Res (Heap × List Nat)) :
    Heap → List Nat → Res (Heap × List Nat)
  | h, [] => Res.ok (h, [])
  | h, i :: l =>
    tbind (tbind (liftT (setBusF h i none)) (fun h' => unr h' i))
      (fun h'' => slotRelease unr h'' l)

/-- Subordinate-bus loop of `TBus::reset` (iterated over the reversed
`_buses` vector): `finish()`, clear the back-reference, `unref()`. -/
def busTeardown (fin unr : Heap → Nat → Res (Heap × List Nat)) :
    Heap → List Nat → Res (Heap × List Nat)
  | h, [] => Res.ok (h, [])
  | h, b :: l =>
    tbind (tbind (tbind (fin h b) (fun h' => liftT (setBusF h' b none)))
        (fun h'' => unr h'' b))
      (fun h3 => busTeardown fin unr h3 l)

mutual

/-- `TRefObj::unref`: throws on a zero count; decrements; on reaching
zero runs `delete this` — for a `TBus` the destructor runs `reset()`
before the storage is reclaimed. -/
def unrefF : Nat → Heap → Nat → Res (Heap × List Nat)
  | 0, _, _ => Res.nofuel
  | fuel+1, h, x =>
    match hlookup h x with
    | some o =>
      if rcOf o = 0 then Res.err underflowMsg
      else if rcOf o = 1 then
        match o with
        | Obj.intf _ => Res.ok (hremove h x, [])
        | Obj.bus _ =>
          tbind (resetF fuel (hset h x (setRc o 0)) x)
            (fun h' => Res.ok (hremove h' x, []))
      else Res.ok (hset h x (setRc o (rcOf o - 1)), [])
    | none => Res.err danglingMsg

/-- `TInterfaceEx::finish` (also inherited by `TBus`): on the first
call set `_cleared`, null the host reference and run the `onClear`
hook — a no-op for a plain interface, `reset()` for a bus.  The
returned trace records this `finish()` invocation followed by any
nested ones. -/
def finishF : Nat → Heap → Nat → Res (Heap × List Nat)
  | 0, _, _ => Res.nofuel
  | fuel+1, h, x =>
    match hlookup h x with
    | some (Obj.intf o) =>
      if o.cleared then Res.ok (h, [x])
      else Res.ok (hset h x (Obj.intf { o with cleared := true, bus := none }), [x])
    | some (Obj.bus bo) =>
      if bo.cleared then Res.ok (h, [x])
      else
        match resetF fuel (hset h x (Obj.bus { bo with cleared := true, busRef := none })) x with
        | Res.ok (h', t) => Res.ok (h', x :: t)
        | Res.err e => Res.err e
        | Res.nofuel => Res.nofuel
    | none => Res.err danglingMsg

/-- `TBus::reset`: no-op unless `_status == ACTIVE`.  Otherwise set
`CLEARING`; notify every sibling to remove this bus and clear the local
sibling set; run the three pass-ordered slot-finish loops; release
every slot (null back-reference, `unref`) and clear the slot vector;
finish, detach and `unref` every subordinate bus in reverse vector
order and clear the vector; finally set `CLEARED`. -/
def resetF : Nat → Heap → Nat → Res (Heap × List Nat)
  | 0, _, _ => Res.nofuel
  | fuel+1, h, x =>
    match hlookup h x with
    | some (Obj.bus bo) =>
      if bo.status = Status.active then
        tbind (liftT (seqFoldP (fun hh p => removeSiblingBusF hh p x)
            (hset h x (Obj.bus { bo with status := Status.clearing })) bo.siblings))
          (fun h1 =>
        tbind (liftT (modifyBus h1 x (fun r => { r with siblings := [] }))) (fun h2 =>
        match hlookup h2 x with
        | some (Obj.bus bo2) =>
          tbind (passLoop (finishF fuel) bo2.intfs h2) (fun h3 =>
          match hlookup h3 x with
          | some (Obj.bus bo3) =>
            tbind (slotRelease (unrefF fuel) h3 (bo3.intfs.map Prod.snd)) (fun h4 =>
            tbind (liftT (modifyBus h4 x (fun r => { r with intfs := [] }))) (fun h5 =>
            match hlookup h5 x with
            | some (Obj.bus bo5) =>
              tbind (busTeardown (finishF fuel) (unrefF fuel) h5 bo5.buses.reverse) (fun h6 =>
              tbind (liftT (modifyBus h6 x (fun r => { r with buses := [] }))) (fun h7 =>
              liftT (modifyBus h7 x (fun r => { r with status := Status.cleared }))))
            | _ => Res.err notBusMsg))
          | _ => Res.err notBusMsg)
        | _ => Res.err notBusMsg))
      else Res.ok (h, [])
    | some (Obj.intf _) => Res.err notBusMsg
    | none => Res.err danglingMsg

end

/-- Level of the bus stored at `y` (used by the `std::sort` comparator
in `TBus::connect`; non-bus ids never occur there in well-formed
heaps). -/
def levelKey (h : Heap) (y : Nat) : Int :=
  match hlookup h y with
  | some (Obj.bus bo) => bo.level
  | _ => 0

/-- Stable insertion into a level-sorted list. -/
def insertByLevel (h : Heap) (b : Nat) : List Nat → List Nat
  | [] => [b]
  | c :: l =>
    if levelKey h c ≤ levelKey h b then c :: insertByLevel h b l
    else b :: c :: l

/-- Sort the subordinate-bus vector ascending by level (the
`std::sort` after `push_back` in `TBus::connect`; modelled as a stable
insertion sort — ties between equal levels are unspecified in the
source). -/
def isortByLevel (h : Heap) : List Nat → List Nat
  | [] => []
  | y :: l => insertByLevel h y (isortByLevel h l)

/-- Erase the first slot holding interface `c` (`std::vector::erase` of
the iterator found by `find_if`). -/
def eraseFirstSlot : List (Int × Nat) → Nat → List (Int × Nat)
  | [], _ => []
  | p :: l, c => if p.2 = c then l else p :: eraseFirstSlot l c

/-- Erase the first occurrence of `b` (`std::vector::erase` of the
iterator found by `find`). -/
def eraseFirstId : List Nat → Nat → List Nat
  | [], _ => []
  | y :: l, b => if y = b then l else y :: eraseFirstId l b

/-- `TBus::connect(intf, order)`:

Fails loudly if this bus is already `CLEARED`.  A self-loop returns
false.  Probe the candidate with the `IBus` identifier (the resulting
increment is balanced by the scope-guaranteed `unref` before every
return of the bus branch).  A bus answer of strictly greater level is
adopted as a strong, level-sorted subordinate (duplicates rejected); an
equal-level answer becomes a weak, mutually-registered sibling
(rejected when its count is exactly 1, on a self-loop, or when already
present); a smaller level is rejected.  A non-bus candidate is appended
to the slot vector (duplicates rejected), ref'd, and attached via
`setBus(this)`. -/
def connectF (fuel : Nat) (h : Heap) (x cand : Nat) (order : Int) :
    Res (Bool × Heap × List Nat) :=
  match hlookup h x with
  | some (Obj.bus xo) =>
    if xo.status = Status.cleared then Res.err apiClosedMsg
    else if cand = x then Res.ok (false, h, [])
    else
      match queryExF fuel h cand iidBus [] with
      | Res.ok (some b, h1, _) =>
        match hlookup h1 b with
        | some (Obj.bus bo) =>
          if xo.level < bo.level then
            if b ∈ xo.buses then
              bindH (unrefF fuel h1 b) (fun p => Res.ok (false, p.1, p.2))
            else
              bindH (modifyBus (hset h1 b (Obj.bus { bo with rc := bo.rc + 1 })) x
                  (fun r => { r with buses := isortByLevel (hset h1 b (Obj.bus { bo with rc := bo.rc + 1 })) (r.buses ++ [b]) }))
                (fun h2 => bindH (unrefF fuel h2 b) (fun p => Res.ok (true, p.1, p.2)))
          else if bo.level = xo.level then
            if bo.rc = 1 then
              bindH (unrefF fuel h1 b) (fun p => Res.ok (false, p.1, p.2))
            else if b = x then
              bindH (unrefF fuel h1 b) (fun p => Res.ok (false, p.1, p.2))
            else if b ∈ xo.siblings then
              bindH (unrefF fuel h1 b) (fun p => Res.ok (false, p.1, p.2))
            else
              bindH (modifyBus h1 x (fun r => { r with siblings := addUniq r.siblings b }))
                (fun h2 => bindH (addSiblingBusF h2 b x)
                  (fun h3 => bindH (unrefF fuel h3 b) (fun p => Res.ok (true, p.1, p.2))))
          else
            bindH (unrefF fuel h1 b) (fun p => Res.ok (false, p.1, p.2))
        | _ => Res.err notBusMsg
      | Res.ok (none, h1, _) =>
        match hlookup h1 x with
        | some (Obj.bus xo1) =>
          if xo1.intfs.any (fun p => p.2 == cand) then Res.ok (false, h1, [])
          else
            match hlookup h1 cand with
            | some co =>
              bindH (modifyBus (hset h1 cand (setRc co (rcOf co + 1))) x
                  (fun r => { r with intfs := r.intfs ++ [(order, cand)] }))
                (fun h2 => bindH (setBusF h2 cand (some x))
                  (fun h3 => Res.ok (true, h3, [])))
            | none => Res.err danglingMsg
        | _ => Res.err notBusMsg
      | Res.err e => Res.err e
      | Res.nofuel => Res.nofuel
  | some (Obj.intf _) => Res.err notBusMsg
  | none => Res.err danglingMsg

/-- `TBus::disconnect`: guarded by `assert_api_not_closed`; remove from
the slot vector first (detach, `unref`), else from the subordinate
vector (`unref`), else fall through to a sibling erase on this bus's
own sibling set. -/
def disconnectF (fuel : Nat) (h : Heap) (x target : Nat) : Res (Heap × List Nat) :=
  match hlookup h x with
  | some (Obj.bus xo) =>
    if xo.status = Status.cleared then Res.err apiClosedMsg
    else if xo.intfs.any (fun p => p.2 == target) then
      bindH (modifyBus h x (fun r => { r with intfs := eraseFirstSlot r.intfs target }))
        (fun h1 => bindH (setBusF h1 target none)
          (fun h2 => unrefF fuel h2 target))
    else if target ∈ xo.buses then
      bindH (modifyBus h x (fun r => { r with buses := eraseFirstId r.buses target }))
        (fun h1 => unrefF fuel h1 target)
    else liftT (removeSiblingBusF h x target)
  | some (Obj.intf _) => Res.err notBusMsg
  | none => Res.err danglingMsg

/-- `IBus::level()` (always available, no closed-API guard). -/
def levelF (h : Heap) (x : Nat) : Res Int :=
  match hlookup h x with
  | some (Obj.bus bo) => Res.ok bo.level
  | _ => Res.err notBusMsg

/-- `finished()`: reports the `_cleared` flag (no closed-API guard). -/
def finishedF (h : Heap) (x : Nat) : Res Bool :=
  match hlookup h x with
  | some (Obj.intf o) => Res.ok o.cleared
  | some (Obj.bus bo) => Res.ok bo.cleared
  | none => Res.err danglingMsg

/-- Executable heap well-formedness (the reachability invariants of the
model, cf. the source's design constraints): subordinate entries are
buses of strictly greater level when present; sibling entries are buses
of equal level and never this bus itself; slot entries are plain
interfaces; no interface carries one of the three reserved root ids
(those belong to the root contracts); an interface's host reference
points at a bus when present. -/
def levelSoundB (h : Heap) : Bool :=
  h.all (fun e =>
    match e.2 with
    | Obj.bus bo =>
      bo.buses.all (fun b =>
        match hlookup h b with
        | some (Obj.bus co) => decide (bo.level < co.level)
        | some (Obj.intf _) => false
        | none => true) &&
      bo.siblings.all (fun s =>
        s != e.1 &&
        match hlookup h s with
        | some (Obj.bus co) => co.level == bo.level
        | some (Obj.intf _) => false
        | none => true) &&
      bo.intfs.all (fun p =>
        match hlookup h p.2 with
        | some (Obj.intf io) => !isRootIID io.iid
        | some (Obj.bus _) => false
        | none => true)
    | Obj.intf io =>
      !isRootIID io.iid &&
      match io.bus with
      | some b =>
        (match hlookup h b with
         | some (Obj.intf _) => false
         | _ => true)
      | none => true)

/-- Executable check that heap keys are duplicate-free. -/
def keysNodupB (h : Heap) : Bool :=
  decide (h.map Prod.fst).Nodup

end XpUtil

namespace XpUtil

/-! ## Basic heap lemmas -/

theorem hlookup_hset_ne (h : Heap) (x y : Nat) (o : Obj) (hxy : y ≠ x) :
    hlookup (hset h x o) y = hlookup h y := by
  induction h with
  | nil => rfl
  | cons e t ih =>
    by_cases hk : e.1 = x
    · simp [hset, hlookup, hk, Ne.symm hxy, ih]
    · by_cases hy : e.1 = y
      · subst hy
        simp [hset, hlookup, hk, hxy, ih]
      · simp [hset, hlookup, hk, hy, ih]

theorem hlookup_hset_self (h : Heap) (x : Nat) (o o' : Obj)
    (ho : hlookup h x = some o') : hlookup (hset h x o) x = some o := by
  induction h with
  | nil => simp [hlookup] at ho
  | cons e t ih =>
    by_cases hk : e.1 = x
    · simp [hset, hlookup, hk]
    · simp [hlookup, hk] at ho
      simp [hset, hlookup, hk, ih ho]

theorem isRootIID_false_elim {i : Nat} (hf : isRootIID i = false) :
    ¬(i = iidBus ∨ i = iidInterfaceEx ∨ i = iidInterface) := by
  simp only [isRootIID, Bool.or_eq_false_iff, beq_eq_false_iff_ne, ne_eq] at hf
  rintro (rfl | rfl | rfl) <;> simp_all

end XpUtil

namespace XpUtil

/-! ## C9: reference-count discipline -/

/-- C9: for every reference-counted object, `unref()` or
`unrefNoDelete()` on a count that is already 0 fails loudly with an
error instead of silently underflowing; `unrefNoDelete()` never
destroys (the object remains in the heap with a decremented count);
`unref()` destroys the object exactly when it makes the count go from
1 to 0 (for a bus the destructor first runs `reset()`), and merely
decrements for any larger count. -/
theorem c9_refcount (fuel : Nat) (h : Heap) (x : Nat) (o : Obj)
    (ho : hlookup h x = some o) :
    (rcOf o = 0 →
      unrefF (fuel + 2) h x = Res.err underflowMsg ∧
      unrefNoDeleteF h x = Res.err underflowMsg) ∧
    (2 ≤ rcOf o →
      unrefF (fuel + 2) h x = Res.ok (hset h x (setRc o (rcOf o - 1)), [])) ∧
    (∀ io, o = Obj.intf io → rcOf o = 1 →
      unrefF (fuel + 2) h x = Res.ok (hremove h x, [])) ∧
    (∀ bo, o = Obj.bus bo → rcOf o = 1 → bo.status ≠ Status.active →
      unrefF (fuel + 2) h x = Res.ok (hremove (hset h x (setRc o 0)) x, [])) ∧
    (1 ≤ rcOf o →
      unrefNoDeleteF h x = Res.ok (hset h x (setRc o (rcOf o - 1)))) := by
  refine ⟨?_, ?_, ?_, ?_, ?_⟩
  · intro h0
    constructor
    · simp [unrefF, ho, h0]
    · simp [unrefNoDeleteF, ho, h0]
  · intro h2
    have h0 : ¬rcOf o = 0 := by omega
    have h1 : ¬rcOf o = 1 := by omega
    simp [unrefF, ho, h0, h1]
  · rintro io rfl h1
    simp [unrefF, ho, h1]
  · rintro bo rfl h1 hst
    have hres : resetF (fuel + 1) (hset h x (setRc (Obj.bus bo) 0)) x = Res.ok (hset h x (setRc (Obj.bus bo) 0), []) := by
      have hl : hlookup (hset h x (setRc (Obj.bus bo) 0)) x = some (setRc (Obj.bus bo) 0) :=
        hlookup_hset_self h x _ _ ho
      simp only [setRc] at hl
      simp [resetF, setRc, hl, hst]
    simp [unrefF, ho, h1, hres, tbind]
  · intro h1
    have h0 : ¬rcOf o = 0 := by omega
    simp [unrefNoDeleteF, ho, h0]

/-- The bus record used by the C9 witness. -/
def c9bus : BusObj :=
  { level := 0, busRef := none, cleared := false, intfs := [], buses := [],
    siblings := [], status := Status.active, rc := 2 }

/-- Heap for the C9 witness: one interface with count 1, one bus with
count 2. -/
def c9H : Heap :=
  [(0, Obj.intf { iid := 100, bus := none, cleared := false, rc := 1 }),
   (1, Obj.bus c9bus)]

/-- Witness for C9 at a concrete heap. -/
theorem c9_witness :
    (rcOf (Obj.bus c9bus) = 0 →
      unrefF 3 c9H 1 = Res.err underflowMsg ∧
      unrefNoDeleteF c9H 1 = Res.err underflowMsg) ∧
    (2 ≤ rcOf (Obj.bus c9bus) →
      unrefF 3 c9H 1 = Res.ok (hset c9H 1 (setRc (Obj.bus c9bus) (rcOf (Obj.bus c9bus) - 1)), [])) ∧
    (∀ io, Obj.bus c9bus = Obj.intf io → rcOf (Obj.bus c9bus) = 1 →
      unrefF 3 c9H 1 = Res.ok (hremove c9H 1, [])) ∧
    (∀ bo, Obj.bus c9bus = Obj.bus bo → rcOf (Obj.bus c9bus) = 1 →
      bo.status ≠ Status.active →
      unrefF 3 c9H 1 = Res.ok (hremove (hset c9H 1 (setRc (Obj.bus c9bus) 0)) 1, [])) ∧
    (1 ≤ rcOf (Obj.bus c9bus) →
      unrefNoDeleteF c9H 1 = Res.ok (hset c9H 1 (setRc (Obj.bus c9bus) (rcOf (Obj.bus c9bus) - 1)))) :=
  c9_refcount 1 c9H 1 (Obj.bus c9bus) rfl

end XpUtil

namespace XpUtil

/-! ## C7: setBus attach/detach discipline -/

/-- C7 (amended): `setBus(null)` always detaches; `setBus(bus)` with a
non-null argument succeeds when the object is currently detached and
fails whenever any non-null host is currently attached — even when the
argument is that same host (the source compares `_bus != nullptr &&
bus != nullptr` only, it does not compare the two pointers). -/
theorem c7_setbus_amended (h : Heap) (x : Nat) (o : IntfObj)
    (ho : hlookup h x = some (Obj.intf o)) :
    (setBusF h x none = Res.ok (hset h x (Obj.intf { o with bus := none }))) ∧
    (o.bus = none → ∀ b : Nat,
      setBusF h x (some b) = Res.ok (hset h x (Obj.intf { o with bus := some b }))) ∧
    (o.bus.isSome = true → ∀ b : Nat,
      setBusF h x (some b) = Res.err hostBusMsg) := by
  refine ⟨?_, ?_, ?_⟩
  · simp [setBusF, ho]
  · intro hb b
    simp [setBusF, ho, hb]
  · intro hb b
    simp [setBusF, ho, hb]

/-- Interface record attached to bus 7, for the C7 counterexample. -/
def c7obj : IntfObj := { iid := 100, bus := some 7, cleared := false, rc := 1 }

/-- Heap for the C7 counterexample. -/
def c7H : Heap :=
  [(3, Obj.intf c7obj),
   (7, Obj.bus { level := 0, busRef := none, cleared := false, intfs := [(0, 3)],
                 buses := [], siblings := [], status := Status.active, rc := 1 })]

/-- C7 counterexample: the object at id 3 is attached to bus 7, and
re-attaching the *same* bus 7 throws — but the claim says `setBus`
fails only when attaching to a *different* non-null bus, so it predicts
success here. -/
theorem c7_counterexample :
    c7obj.bus = some 7 ∧ setBusF c7H 3 (some 7) = Res.err hostBusMsg :=
  ⟨rfl, rfl⟩

/-- Detached interface record for the C7 witness. -/
def c7obj2 : IntfObj := { iid := 100, bus := none, cleared := false, rc := 1 }

/-- Heap for the C7 witness. -/
def c7H2 : Heap := [(3, Obj.intf c7obj2)]

/-- Witness for the amended C7 at a concrete heap. -/
theorem c7_witness :
    (setBusF c7H2 3 none = Res.ok (hset c7H2 3 (Obj.intf { c7obj2 with bus := none }))) ∧
    (c7obj2.bus = none → ∀ b : Nat,
      setBusF c7H2 3 (some b) = Res.ok (hset c7H2 3 (Obj.intf { c7obj2 with bus := some b }))) ∧
    (c7obj2.bus.isSome = true → ∀ b : Nat,
      setBusF c7H2 3 (some b) = Res.err hostBusMsg) :=
  c7_setbus_amended c7H2 3 c7obj2 rfl

/-! ## C6: finish() on an extensible interface -/

/-- C6 (amended): the first `finish()` marks the object finished and
clears the host reference; `finished()` reports true and stays true;
any further `finish()` call leaves the heap unchanged.  However a
later `setBus` with a non-null bus is *not* refused: since `finish()`
reset the host reference to null, the attach guard passes and the bus
is installed. -/
theorem c6_finish_amended (fuel : Nat) (h : Heap) (x : Nat) (o : IntfObj)
    (ho : hlookup h x = some (Obj.intf o)) :
    (o.cleared = false →
      finishF (fuel + 1) h x =
        Res.ok (hset h x (Obj.intf { o with cleared := true, bus := none }), [x]) ∧
      finishedF (hset h x (Obj.intf { o with cleared := true, bus := none })) x =
        Res.ok true) ∧
    (o.cleared = true →
      finishF (fuel + 1) h x = Res.ok (h, [x]) ∧
      finishedF h x = Res.ok true) ∧
    (o.cleared = true → o.bus = none → ∀ b : Nat,
      setBusF h x (some b) = Res.ok (hset h x (Obj.intf { o with bus := some b }))) := by
  refine ⟨?_, ?_, ?_⟩
  · intro hc
    have hl := hlookup_hset_self h x (Obj.intf { o with cleared := true, bus := none })
      (Obj.intf o) ho
    constructor
    · simp [finishF, ho, hc]
    · simp [finishedF, hl]
  · intro hc
    constructor
    · simp [finishF, ho, hc]
    · simp [finishedF, ho, hc]
  · intro hc hb b
    simp [setBusF, ho, hb]

/-- Heap for the C6 counterexample: interface 3 hosted on bus 7. -/
def c6H : Heap :=
  [(3, Obj.intf { iid := 100, bus := some 7, cleared := false, rc := 1 }),
   (7, Obj.bus { level := 0, busRef := none, cleared := false, intfs := [(0, 3)],
                 buses := [], siblings := [], status := Status.active, rc := 1 })]

/-- `c6H` after `finish()` on interface 3. -/
def c6H1 : Heap :=
  [(3, Obj.intf { iid := 100, bus := none, cleared := true, rc := 1 }),
   (7, Obj.bus { level := 0, busRef := none, cleared := false, intfs := [(0, 3)],
                 buses := [], siblings := [], status := Status.active, rc := 1 })]

/-- `c6H1` after the post-finish `setBus(bus 7)`. -/
def c6H2 : Heap :=
  [(3, Obj.intf { iid := 100, bus := some 7, cleared := true, rc := 1 }),
   (7, Obj.bus { level := 0, busRef := none, cleared := false, intfs := [(0, 3)],
                 buses := [], siblings := [], status := Status.active, rc := 1 })]

/-- C6 counterexample: after `finish()` the object reports finished,
yet a later attach via `setBus(bus 7)` *succeeds* (the host reference
was nulled by `finish()`, and `setBus` never checks the finished
flag) — the claim says any such attach is refused. -/
theorem c6_counterexample :
    finishF 2 c6H 3 = Res.ok (c6H1, [3]) ∧
    finishedF c6H1 3 = Res.ok true ∧
    setBusF c6H1 3 (some 7) = Res.ok c6H2 :=
  ⟨rfl, rfl, rfl⟩

/-- Witness for the amended C6 at a concrete heap. -/
theorem c6_witness :
    (({ iid := 100, bus := some 7, cleared := false, rc := 1 } : IntfObj).cleared = false →
      finishF 2 c6H 3 =
        Res.ok (hset c6H 3 (Obj.intf { ({ iid := 100, bus := some 7, cleared := false, rc := 1 } : IntfObj) with cleared := true, bus := none }), [3]) ∧
      finishedF (hset c6H 3 (Obj.intf { ({ iid := 100, bus := some 7, cleared := false, rc := 1 } : IntfObj) with cleared := true, bus := none })) 3 =
        Res.ok true) ∧
    (({ iid := 100, bus := some 7, cleared := false, rc := 1 } : IntfObj).cleared = true →
      finishF 2 c6H 3 = Res.ok (c6H, [3]) ∧
      finishedF c6H 3 = Res.ok true) ∧
    (({ iid := 100, bus := some 7, cleared := false, rc := 1 } : IntfObj).cleared = true →
      ({ iid := 100, bus := some 7, cleared := false, rc := 1 } : IntfObj).bus = none → ∀ b : Nat,
      setBusF c6H 3 (some b) = Res.ok (hset c6H 3 (Obj.intf { ({ iid := 100, bus := some 7, cleared := false, rc := 1 } : IntfObj) with bus := some b }))) :=
  c6_finish_amended 1 c6H 3 _ rfl

end XpUtil

namespace XpUtil

/-! ## C3: operations on a Cleared bus -/

/-- C3 (amended): on a bus whose status is `CLEARED`, every structural
operation — `connect`, `disconnect`, `addSiblingBus`,
`removeSiblingBus`, `findFirstBusByLevel` — throws
`api already disabled!`, and so does `queryInterfaceEx` for every
identifier that is not one of the three root identifiers.  Queries for
the root identifiers, however, still succeed and return the bus itself
(the root-identifier check precedes `assert_api_not_closed` in the
source), and `finished()` / `level()` remain available. -/
theorem c3_cleared_ops_fail (h : Heap) (x : Nat) (bo : BusObj)
    (ho : hlookup h x = some (Obj.bus bo))
    (hcl : bo.status = Status.cleared) :
    (∀ fuel cand ord, connectF fuel h x cand ord = Res.err apiClosedMsg) ∧
    (∀ fuel t, disconnectF fuel h x t = Res.err apiClosedMsg) ∧
    (∀ b, addSiblingBusF h x b = Res.err apiClosedMsg) ∧
    (∀ b, removeSiblingBusF h x b = Res.err apiClosedMsg) ∧
    (∀ fl lvl, findFBL (fl + 1) h x lvl = Res.err apiClosedMsg) ∧
    (∀ fl iid v, isRootIID iid = false →
      queryExF (fl + 1) h x iid v = Res.err apiClosedMsg) ∧
    finishedF h x = Res.ok bo.cleared ∧
    levelF h x = Res.ok bo.level := by
  refine ⟨?_, ?_, ?_, ?_, ?_, ?_, ?_, ?_⟩
  · intro fuel cand ord
    simp [connectF, ho, hcl]
  · intro fuel t
    simp [disconnectF, ho, hcl]
  · intro b
    simp [addSiblingBusF, ho, hcl]
  · intro b
    simp [removeSiblingBusF, ho, hcl]
  · intro fl lvl
    simp [findFBL, ho, hcl]
  · intro fl iid v hroot
    have hne := isRootIID_false_elim hroot
    simp [queryExF, ho, hcl, hne]
  · simp [finishedF, ho]
  · simp [levelF, ho]

/-- Cleared bus record for C3. -/
def c3bus : BusObj :=
  { level := 0, busRef := none, cleared := true, intfs := [], buses := [],
    siblings := [], status := Status.cleared, rc := 1 }

/-- Heap with a cleared bus (id 0) and a detached interface (id 1). -/
def c3H : Heap :=
  [(0, Obj.bus c3bus),
   (1, Obj.intf { iid := 100, bus := none, cleared := false, rc := 1 })]

/-- C3 counterexample: a query for the root `IBus` identifier on a
*Cleared* bus does not fail — it succeeds, returns the bus itself and
increments its count — contradicting the claim that every interface
query on a Cleared bus fails. -/
theorem c3_counterexample :
    queryExF 1 c3H 0 iidBus [] =
      Res.ok (some 0, hset c3H 0 (Obj.bus { c3bus with rc := c3bus.rc + 1 }), []) :=
  rfl

/-- Witness for the amended C3 at a concrete heap. -/
theorem c3_witness :
    ((∀ fuel cand ord, connectF fuel c3H 0 cand ord = Res.err apiClosedMsg) ∧
    (∀ fuel t, disconnectF fuel c3H 0 t = Res.err apiClosedMsg) ∧
    (∀ b, addSiblingBusF c3H 0 b = Res.err apiClosedMsg) ∧
    (∀ b, removeSiblingBusF c3H 0 b = Res.err apiClosedMsg) ∧
    (∀ fl lvl, findFBL (fl + 1) c3H 0 lvl = Res.err apiClosedMsg) ∧
    (∀ fl iid v, isRootIID iid = false →
      queryExF (fl + 1) c3H 0 iid v = Res.err apiClosedMsg) ∧
    finishedF c3H 0 = Res.ok c3bus.cleared ∧
    levelF c3H 0 = Res.ok c3bus.level) :=
  c3_cleared_ops_fail c3H 0 c3bus rfl rfl

end XpUtil

namespace XpUtil

/-! ## C8: findFirstBusByLevel on a sibling cycle -/

/-- Two fresh level-0 buses, each with one outside reference. -/
def c8H0 : Heap :=
  [(0, Obj.bus { level := 0, busRef := none, cleared := false, intfs := [], buses := [],
                 siblings := [], status := Status.active, rc := 1 }),
   (1, Obj.bus { level := 0, busRef := none, cleared := false, intfs := [], buses := [],
                 siblings := [], status := Status.active, rc := 1 })]

/-- The same two buses after `bus0.connect(bus1)`: mutually registered
siblings. -/
def c8H : Heap :=
  [(0, Obj.bus { level := 0, busRef := none, cleared := false, intfs := [], buses := [],
                 siblings := [1], status := Status.active, rc := 1 }),
   (1, Obj.bus { level := 0, busRef := none, cleared := false, intfs := [], buses := [],
                 siblings := [0], status := Status.active, rc := 1 })]

/-- On the mutual-sibling heap, `findFirstBusByLevel(1)` runs out of
any amount of fuel from either bus: bus 0 delegates to its sibling
bus 1, which delegates back to bus 0, and so on — the source has no
visited set in `findFirstBusByLevel`. -/
theorem c8_loop (fuel : Nat) :
    findFBL fuel c8H 0 1 = Res.nofuel ∧ findFBL fuel c8H 1 1 = Res.nofuel := by
  induction fuel with
  | zero => exact ⟨rfl, rfl⟩
  | succ n ih =>
    have ih0 := ih.1
    have ih1 := ih.2
    simp only [c8H] at ih0 ih1
    constructor
    · simp [findFBL, scanFBL, c8H, hlookup, ih0, ih1]
    · simp [findFBL, scanFBL, c8H, hlookup, ih0, ih1]

/-- C8: the sibling topology built by `connect` itself makes
`findFirstBusByLevel` diverge.  `bus0.connect(bus1)` (equal levels)
succeeds and registers the two buses as mutual siblings; afterwards
`bus0.findFirstBusByLevel(1)` — a level hosted by no reachable bus —
never terminates for any fuel bound, instead of returning not-found as
the claim states: bus 0 recurses into sibling bus 1, which recurses
back into bus 0 without any cycle protection. -/
theorem c8_findbus_diverges :
    connectF 3 c8H0 0 1 0 = Res.ok (true, c8H, []) ∧
    ∀ fuel, findFBL fuel c8H 0 1 = Res.nofuel :=
  ⟨rfl, fun fuel => (c8_loop fuel).1⟩

end XpUtil

namespace XpUtil

/-! ## Helper lemmas for connect -/

theorem hset_hset_same (h : Heap) (x : Nat) (o o' : Obj) :
    hset (hset h x o) x o' = hset h x o' := by
  induction h with
  | nil => rfl
  | cons e t ih =>
    by_cases hk : e.1 = x <;> simp [hset, hk, ih]

theorem levelKey_hset_rc (h : Heap) (b : Nat) (bo : BusObj) (m : Nat)
    (hb : hlookup h b = some (Obj.bus bo)) (y : Nat) :
    levelKey (hset h b (Obj.bus { bo with rc := m })) y = levelKey h y := by
  by_cases hy : y = b
  · subst hy
    rw [levelKey, hlookup_hset_self h y _ _ hb, levelKey, hb]
  · rw [levelKey, hlookup_hset_ne h b y _ hy, levelKey]

theorem insertByLevel_congr (h1 h2 : Heap) (hk : ∀ y, levelKey h1 y = levelKey h2 y)
    (b : Nat) (l : List Nat) : insertByLevel h1 b l = insertByLevel h2 b l := by
  induction l with
  | nil => rfl
  | cons c t ih => simp [insertByLevel, hk, ih]

theorem isortByLevel_congr (h1 h2 : Heap) (hk : ∀ y, levelKey h1 y = levelKey h2 y) :
    ∀ l : List Nat, isortByLevel h1 l = isortByLevel h2 l := by
  intro l
  induction l with
  | nil => rfl
  | cons y t ih => simp [isortByLevel, ih, insertByLevel_congr h1 h2 hk]

/-- Probing any bus object with the `IBus` root identifier answers
immediately with the bus itself, incremented once (first branch of
`TBus::queryInterfaceEx`, before the closed-API assert). -/
theorem queryBusProbe (fuel : Nat) (h : Heap) (b : Nat) (bo : BusObj)
    (hb : hlookup h b = some (Obj.bus bo)) :
    queryExF (fuel + 1) h b iidBus [] =
      Res.ok (some b, hset h b (Obj.bus { bo with rc := bo.rc + 1 }), []) := by
  simp [queryExF, hb]

/-- The successful equal-level (sibling) path of `TBus::connect`. -/
theorem connect_sibling_eq (fuel : Nat) (h : Heap) (a b : Nat) (ao bo : BusObj)
    (ord : Int)
    (ha : hlookup h a = some (Obj.bus ao)) (hb : hlookup h b = some (Obj.bus bo))
    (hne : b ≠ a) (hst : ao.status ≠ Status.cleared) (hbst : bo.status ≠ Status.cleared)
    (hlvl : bo.level = ao.level) (hrc : bo.rc ≠ 0) (hnsib : b ∉ ao.siblings) :
    ∃ h', connectF (fuel + 1) h a b ord = Res.ok (true, h', []) ∧
      hlookup h' a = some (Obj.bus { ao with siblings := addUniq ao.siblings b }) ∧
      hlookup h' b = some (Obj.bus { bo with siblings := addUniq bo.siblings a }) := by
  have hq := queryBusProbe fuel h b bo hb
  have hane : a ≠ b := Ne.symm hne
  have hb1 : hlookup (hset h b (Obj.bus { bo with rc := bo.rc + 1 })) b =
      some (Obj.bus { bo with rc := bo.rc + 1 }) := hlookup_hset_self h b _ _ hb
  have ha1 : hlookup (hset h b (Obj.bus { bo with rc := bo.rc + 1 })) a =
      some (Obj.bus ao) := by rw [hlookup_hset_ne h b a _ hane, ha]
  have hb2 : hlookup (hset (hset h b (Obj.bus { bo with rc := bo.rc + 1 })) a
      (Obj.bus { ao with siblings := addUniq ao.siblings b })) b =
      some (Obj.bus { bo with rc := bo.rc + 1 }) := by
    rw [hlookup_hset_ne _ a b _ hne, hb1]
  have hb3 : hlookup (hset (hset (hset h b (Obj.bus { bo with rc := bo.rc + 1 })) a
      (Obj.bus { ao with siblings := addUniq ao.siblings b })) b
      (Obj.bus { bo with rc := bo.rc + 1, siblings := addUniq bo.siblings a })) b =
      some (Obj.bus { bo with rc := bo.rc + 1, siblings := addUniq bo.siblings a }) :=
    hlookup_hset_self _ b _ _ hb2
  have hlt : ¬ao.level < bo.level := by omega
  have hrc1 : ¬bo.rc + 1 = 1 := by omega
  have hrc0 : ¬bo.rc + 1 = 0 := by omega
  refine ⟨hset (hset (hset h b (Obj.bus { bo with rc := bo.rc + 1 })) a
      (Obj.bus { ao with siblings := addUniq ao.siblings b })) b
      (Obj.bus { bo with siblings := addUniq bo.siblings a }), ?_, ?_, ?_⟩
  · simp only [connectF, ha, if_neg hst, if_neg hne, hq, hb1, bindH, modifyBus, ha1,
      addSiblingBusF, hb2, if_neg hbst, unrefF, hb3, rcOf, setRc, if_neg hlt,
      if_pos hlvl, if_neg hrc1, if_neg hrc0, if_neg hnsib, hset_hset_same]
    simp [hst, hne, hnsib, hrc1, hset_hset_same]
  · rw [hlookup_hset_ne _ b a _ hane, hlookup_hset_self _ a _ _ ha1]
  · rw [hlookup_hset_self _ b _ _ hb2]

/-- The successful strictly-greater-level (subordinate) path of
`TBus::connect`: the candidate is strongly referenced (net +1) and
inserted into the level-sorted subordinate vector. -/
theorem connect_subordinate_eq (fuel : Nat) (h : Heap) (a b : Nat) (ao bo : BusObj)
    (ord : Int)
    (ha : hlookup h a = some (Obj.bus ao)) (hb : hlookup h b = some (Obj.bus bo))
    (hne : b ≠ a) (hst : ao.status ≠ Status.cleared)
    (hgt : ao.level < bo.level) (hnbus : b ∉ ao.buses) :
    ∃ h', connectF (fuel + 1) h a b ord = Res.ok (true, h', []) ∧
      hlookup h' a = some (Obj.bus { ao with buses := isortByLevel h (ao.buses ++ [b]) }) ∧
      hlookup h' b = some (Obj.bus { bo with rc := bo.rc + 1 }) := by
  have hq := queryBusProbe fuel h b bo hb
  have hane : a ≠ b := Ne.symm hne
  have hb1 : hlookup (hset h b (Obj.bus { bo with rc := bo.rc + 1 })) b =
      some (Obj.bus { bo with rc := bo.rc + 1 }) := hlookup_hset_self h b _ _ hb
  have hb2 : hlookup (hset h b (Obj.bus { bo with rc := bo.rc + 1 + 1 })) b =
      some (Obj.bus { bo with rc := bo.rc + 1 + 1 }) := hlookup_hset_self h b _ _ hb
  have ha2 : hlookup (hset h b (Obj.bus { bo with rc := bo.rc + 1 + 1 })) a =
      some (Obj.bus ao) := by
    rw [hlookup_hset_ne _ b a _ hane, ha]
  have hsort : isortByLevel (hset h b (Obj.bus { bo with rc := bo.rc + 1 + 1 }))
      (ao.buses ++ [b]) = isortByLevel h (ao.buses ++ [b]) :=
    isortByLevel_congr _ h (levelKey_hset_rc h b bo _ hb) _
  have hb3 : hlookup (hset (hset h b (Obj.bus { bo with rc := bo.rc + 1 + 1 })) a
      (Obj.bus { ao with buses := isortByLevel h (ao.buses ++ [b]) })) b =
      some (Obj.bus { bo with rc := bo.rc + 1 + 1 }) := by
    rw [hlookup_hset_ne _ a b _ hne]
    exact hb2
  have hrc0 : ¬bo.rc + 1 + 1 = 0 := by omega
  have hrc1 : ¬bo.rc + 1 + 1 = 1 := by omega
  refine ⟨hset (hset (hset h b (Obj.bus { bo with rc := bo.rc + 1 + 1 })) a
      (Obj.bus { ao with buses := isortByLevel h (ao.buses ++ [b]) })) b
      (Obj.bus { bo with rc := bo.rc + 1 }), ?_, ?_, ?_⟩
  · simp only [connectF, ha, if_neg hst, if_neg hne, hq, hb1, bindH, modifyBus, ha2,
      if_pos hgt, if_neg hnbus, hset_hset_same, hsort, unrefF, hb3, rcOf, setRc,
      if_neg hrc0, if_neg hrc1]
    simp [hst, hne, hnbus, hgt]
  · rw [hlookup_hset_ne _ b a _ hane, hlookup_hset_self _ a _ _ ha2]
  · rw [hlookup_hset_self _ b _ _ hb3]

/-- A reject continuation never produces a successful-connect result. -/
theorem bindH_reject_ne (r : Res (Heap × List Nat)) (h' : Heap) (t : List Nat) :
    bindH r (fun p => Res.ok (false, p.1, p.2)) ≠ Res.ok (true, h', t) := by
  cases r with
  | ok p => simp [bindH]
  | err e => simp [bindH]
  | nofuel => simp [bindH]

/-- `connect` on a non-cleared bus with the bus itself as candidate
returns false before touching any state. -/
theorem connect_self_eq (fuel : Nat) (h : Heap) (a : Nat) (ao : BusObj) (ord : Int)
    (ha : hlookup h a = some (Obj.bus ao)) (hst : ao.status ≠ Status.cleared) :
    connectF fuel h a a ord = Res.ok (false, h, []) := by
  simp [connectF, ha, hst]

/-! ## C4: connect level rules -/

/-- C4 (amended): for buses `A` (not cleared) and `B` (not cleared),
`A.connect(B)` succeeds iff `B.level() ≥ A.level()` **and** `B` is not
`A` itself, is not already in the corresponding collection, and — in
the equal-level case — has a nonzero outside reference count (the
source rejects a candidate whose count is exactly 1 during the probe,
i.e. whose only reference is the probe's own temporary one; the
repository test asserts `CHECK_FALSE(bus0->connect(new TBus(0)))`).
On success, a strictly-greater level installs `B` as a strongly
referenced (count +1), level-sorted subordinate; an equal level
installs `B` as a weakly referenced sibling (count unchanged)
registered symmetrically in both sibling sets. -/
theorem c4_connect_levels_amended (fuel : Nat) (h : Heap) (a b : Nat)
    (ao bo : BusObj) (ord : Int)
    (ha : hlookup h a = some (Obj.bus ao)) (hb : hlookup h b = some (Obj.bus bo))
    (hst : ao.status ≠ Status.cleared) (hbst : bo.status ≠ Status.cleared) :
    ((∃ h' t, connectF (fuel + 1) h a b ord = Res.ok (true, h', t)) ↔
      (b ≠ a ∧ ao.level ≤ bo.level ∧
        (ao.level < bo.level → b ∉ ao.buses) ∧
        (bo.level = ao.level → bo.rc ≠ 0 ∧ b ∉ ao.siblings))) ∧
    (b ≠ a → bo.level = ao.level → bo.rc ≠ 0 → b ∉ ao.siblings →
      ∃ h', connectF (fuel + 1) h a b ord = Res.ok (true, h', []) ∧
        hlookup h' a = some (Obj.bus { ao with siblings := addUniq ao.siblings b }) ∧
        hlookup h' b = some (Obj.bus { bo with siblings := addUniq bo.siblings a })) ∧
    (b ≠ a → ao.level < bo.level → b ∉ ao.buses →
      ∃ h', connectF (fuel + 1) h a b ord = Res.ok (true, h', []) ∧
        hlookup h' a = some (Obj.bus { ao with buses := isortByLevel h (ao.buses ++ [b]) }) ∧
        hlookup h' b = some (Obj.bus { bo with rc := bo.rc + 1 })) := by
  have hq := queryBusProbe fuel h b bo hb
  have hb1 : hlookup (hset h b (Obj.bus { bo with rc := bo.rc + 1 })) b =
      some (Obj.bus { bo with rc := bo.rc + 1 }) := hlookup_hset_self h b _ _ hb
  refine ⟨⟨?_, ?_⟩, ?_, ?_⟩
  · rintro ⟨h', t, heq⟩
    by_cases hba : b = a
    · subst hba
      rw [connect_self_eq (fuel + 1) h b ao ord ha hst] at heq
      simp at heq
    refine ⟨hba, ?_, ?_, ?_⟩
    · by_contra hlt
      push_neg at hlt
      have hlt2 : ¬ao.level < bo.level := by omega
      have hne2 : ¬bo.level = ao.level := by omega
      rw [show connectF (fuel + 1) h a b ord =
          bindH (unrefF (fuel + 1) (hset h b (Obj.bus { bo with rc := bo.rc + 1 })) b)
            (fun p => Res.ok (false, p.1, p.2)) by
        simp only [connectF, ha, if_neg hst, if_neg hba, hq, hb1, if_neg hlt2, if_neg hne2]] at heq
      exact absurd heq (bindH_reject_ne _ _ _)
    · intro hlt hmem
      rw [show connectF (fuel + 1) h a b ord =
          bindH (unrefF (fuel + 1) (hset h b (Obj.bus { bo with rc := bo.rc + 1 })) b)
            (fun p => Res.ok (false, p.1, p.2)) by
        simp only [connectF, ha, if_neg hst, if_neg hba, hq, hb1, if_pos hlt, if_pos hmem]] at heq
      exact absurd heq (bindH_reject_ne _ _ _)
    · intro hlv
      have hlt2 : ¬ao.level < bo.level := by omega
      constructor
      · intro hz
        have h1 : bo.rc + 1 = 1 := by omega
        rw [show connectF (fuel + 1) h a b ord =
            bindH (unrefF (fuel + 1) (hset h b (Obj.bus { bo with rc := bo.rc + 1 })) b)
              (fun p => Res.ok (false, p.1, p.2)) by
          simp only [connectF, ha, if_neg hst, if_neg hba, hq, hb1, if_neg hlt2, if_pos hlv,
            if_pos h1]] at heq
        exact absurd heq (bindH_reject_ne _ _ _)
      · intro hmem
        by_cases hz : bo.rc = 0
        · have h1 : bo.rc + 1 = 1 := by omega
          rw [show connectF (fuel + 1) h a b ord =
              bindH (unrefF (fuel + 1) (hset h b (Obj.bus { bo with rc := bo.rc + 1 })) b)
                (fun p => Res.ok (false, p.1, p.2)) by
            simp only [connectF, ha, if_neg hst, if_neg hba, hq, hb1, if_neg hlt2, if_pos hlv,
              if_pos h1]] at heq
          exact absurd heq (bindH_reject_ne _ _ _)
        · have h1 : ¬bo.rc + 1 = 1 := by omega
          rw [show connectF (fuel + 1) h a b ord =
              bindH (unrefF (fuel + 1) (hset h b (Obj.bus { bo with rc := bo.rc + 1 })) b)
                (fun p => Res.ok (false, p.1, p.2)) by
            simp only [connectF, ha, if_neg hst, if_neg hba, hq, hb1, if_neg hlt2, if_pos hlv,
              if_neg h1, if_neg hba, if_pos hmem]] at heq
          exact absurd heq (bindH_reject_ne _ _ _)
  · rintro ⟨hba, hle, hbuses, hsib⟩
    rcases lt_or_eq_of_le hle with hlt | heq2
    · obtain ⟨h', hc, _, _⟩ := connect_subordinate_eq fuel h a b ao bo ord ha hb hba hst hlt (hbuses hlt)
      exact ⟨h', [], hc⟩
    · obtain ⟨hz, hm⟩ := hsib heq2.symm
      obtain ⟨h', hc, _, _⟩ := connect_sibling_eq fuel h a b ao bo ord ha hb hba hst hbst heq2.symm hz hm
      exact ⟨h', [], hc⟩
  · intro hba hlv hz hm
    exact connect_sibling_eq fuel h a b ao bo ord ha hb hba hst hbst hlv hz hm
  · intro hba hlt hm
    exact connect_subordinate_eq fuel h a b ao bo ord ha hb hba hst hlt hm

/-- Heap for the C4 counterexample: bus 0 (level 0, one outside
reference) and bus 1 (level 0, *no* outside reference — a freshly
constructed `new TBus(0)`). -/
def c4cH : Heap :=
  [(0, Obj.bus { level := 0, busRef := none, cleared := false, intfs := [], buses := [],
                 siblings := [], status := Status.active, rc := 1 }),
   (1, Obj.bus { level := 0, busRef := none, cleared := false, intfs := [], buses := [],
                 siblings := [], status := Status.active, rc := 0 })]

/-- C4 counterexample: `bus1.level() ≥ bus0.level()` holds (both are
level 0), yet `bus0.connect(bus1)` returns false — the equal-level
branch rejects a candidate whose only reference is the probe's
temporary one (`bus->count() == 1`), and the balancing release then
destroys the candidate.  This refutes "succeeds if and only if
`B.level() >= A.level()`". -/
theorem c4_counterexample :
    levelF c4cH 0 = Res.ok 0 ∧ levelF c4cH 1 = Res.ok 0 ∧
    connectF 4 c4cH 0 1 0 =
      Res.ok (false,
        [(0, Obj.bus { level := 0, busRef := none, cleared := false, intfs := [], buses := [],
                       siblings := [], status := Status.active, rc := 1 })], []) :=
  ⟨rfl, rfl, by decide⟩

/-- Bus records for the C4 witness. -/
def c4wa : BusObj :=
  { level := 0, busRef := none, cleared := false, intfs := [], buses := [],
    siblings := [], status := Status.active, rc := 1 }

def c4wb : BusObj :=
  { level := 1, busRef := none, cleared := false, intfs := [], buses := [],
    siblings := [], status := Status.active, rc := 1 }

/-- Heap for the C4 witness. -/
def c4wH : Heap := [(0, Obj.bus c4wa), (1, Obj.bus c4wb)]

/-- Witness for the amended C4 at a concrete heap. -/
theorem c4_witness :
    ((∃ h' t, connectF 3 c4wH 0 1 0 = Res.ok (true, h', t)) ↔
      ((1 : Nat) ≠ 0 ∧ c4wa.level ≤ c4wb.level ∧
        (c4wa.level < c4wb.level → (1 : Nat) ∉ c4wa.buses) ∧
        (c4wb.level = c4wa.level → c4wb.rc ≠ 0 ∧ (1 : Nat) ∉ c4wa.siblings))) ∧
    ((1 : Nat) ≠ 0 → c4wb.level = c4wa.level → c4wb.rc ≠ 0 → (1 : Nat) ∉ c4wa.siblings →
      ∃ h', connectF 3 c4wH 0 1 0 = Res.ok (true, h', []) ∧
        hlookup h' 0 = some (Obj.bus { c4wa with siblings := addUniq c4wa.siblings 1 }) ∧
        hlookup h' 1 = some (Obj.bus { c4wb with siblings := addUniq c4wb.siblings 0 })) ∧
    ((1 : Nat) ≠ 0 → c4wa.level < c4wb.level → (1 : Nat) ∉ c4wa.buses →
      ∃ h', connectF 3 c4wH 0 1 0 = Res.ok (true, h', []) ∧
        hlookup h' 0 = some (Obj.bus { c4wa with buses := isortByLevel c4wH (c4wa.buses ++ [1]) }) ∧
        hlookup h' 1 = some (Obj.bus { c4wb with rc := c4wb.rc + 1 })) :=
  c4_connect_levels_amended 2 c4wH 0 1 c4wa c4wb 0 rfl rfl (by decide) (by decide)

/-! ## C5: sibling symmetry -/

/-- `disconnect` of a target that is in neither the slot vector nor the
subordinate vector falls through to `removeSiblingBus` on **this bus
only**: it erases the target from this bus's own sibling set and
touches nothing else. -/
theorem disconnect_sibling_eq (fuel : Nat) (h : Heap) (a b : Nat) (ao : BusObj)
    (ha : hlookup h a = some (Obj.bus ao)) (hst : ao.status ≠ Status.cleared)
    (hnslot : ao.intfs.any (fun p => p.2 == b) = false) (hnbus : b ∉ ao.buses) :
    disconnectF fuel h a b =
      Res.ok (hset h a (Obj.bus { ao with siblings := ao.siblings.filter (fun s => s != b) }), []) := by
  simp [disconnectF, ha, hst, hnslot, hnbus, removeSiblingBusF, liftT]

/-- C5 (amended): the sibling relation is established symmetrically by
`connect` (each bus lands in the other's sibling set, counts
unchanged), and teardown (`reset`) notifies every sibling; but removal
via `disconnect` is **one-sided**: it erases the target from the
disconnecting bus's own sibling set only, leaving the reverse entry —
the disconnecting bus — in the target's sibling set. -/
theorem c5_sibling_symmetry_amended (fuel : Nat) (h : Heap) (a b : Nat)
    (ao bo : BusObj) (ord : Int)
    (ha : hlookup h a = some (Obj.bus ao)) (hb : hlookup h b = some (Obj.bus bo))
    (hne : b ≠ a) (hst : ao.status ≠ Status.cleared) (hbst : bo.status ≠ Status.cleared)
    (hlvl : bo.level = ao.level) (hrc : bo.rc ≠ 0) (hnsib : b ∉ ao.siblings) :
    (∃ h', connectF (fuel + 1) h a b ord = Res.ok (true, h', []) ∧
      hlookup h' a = some (Obj.bus { ao with siblings := addUniq ao.siblings b }) ∧
      hlookup h' b = some (Obj.bus { bo with siblings := addUniq bo.siblings a })) ∧
    (∀ h2 ao2, hlookup h2 a = some (Obj.bus ao2) → ao2.status ≠ Status.cleared →
      ao2.intfs.any (fun p => p.2 == b) = false → b ∉ ao2.buses →
      disconnectF fuel h2 a b =
        Res.ok (hset h2 a (Obj.bus { ao2 with siblings := ao2.siblings.filter (fun s => s != b) }), []) ∧
      hlookup (hset h2 a (Obj.bus { ao2 with siblings := ao2.siblings.filter (fun s => s != b) })) b =
        hlookup h2 b) := by
  constructor
  · exact connect_sibling_eq fuel h a b ao bo ord ha hb hne hst hbst hlvl hrc hnsib
  · intro h2 ao2 ha2 hst2 hnslot hnbus
    refine ⟨disconnect_sibling_eq fuel h2 a b ao2 ha2 hst2 hnslot hnbus, ?_⟩
    exact hlookup_hset_ne h2 a b _ hne

/-- Mutual-sibling heap for the C5 counterexample. -/
def c5H : Heap :=
  [(0, Obj.bus { level := 0, busRef := none, cleared := false, intfs := [], buses := [],
                 siblings := [1], status := Status.active, rc := 1 }),
   (1, Obj.bus { level := 0, busRef := none, cleared := false, intfs := [], buses := [],
                 siblings := [0], status := Status.active, rc := 1 })]

/-- C5 counterexample: with buses 0 and 1 registered as mutual
siblings, `bus0.disconnect(bus1)` empties bus 0's sibling set but
leaves bus 0 still registered in bus 1's sibling set — the relation is
removed from only one side, contradicting "never from only one
side". -/
theorem c5_counterexample :
    disconnectF 3 c5H 0 1 =
      Res.ok ([(0, Obj.bus { level := 0, busRef := none, cleared := false, intfs := [],
                             buses := [], siblings := [], status := Status.active, rc := 1 }),
               (1, Obj.bus { level := 0, busRef := none, cleared := false, intfs := [],
                             buses := [], siblings := [0], status := Status.active, rc := 1 })], []) := by
  decide

/-- Bus records for the C5 witness. -/
def c5wa : BusObj :=
  { level := 0, busRef := none, cleared := false, intfs := [], buses := [],
    siblings := [], status := Status.active, rc := 1 }

def c5wb : BusObj :=
  { level := 0, busRef := none, cleared := false, intfs := [], buses := [],
    siblings := [], status := Status.active, rc := 1 }

/-- Heap for the C5 witness. -/
def c5wH : Heap := [(0, Obj.bus c5wa), (1, Obj.bus c5wb)]

/-- Witness for the amended C5 at a concrete heap. -/
theorem c5_witness :
    (∃ h', connectF 3 c5wH 0 1 0 = Res.ok (true, h', []) ∧
      hlookup h' 0 = some (Obj.bus { c5wa with siblings := addUniq c5wa.siblings 1 }) ∧
      hlookup h' 1 = some (Obj.bus { c5wb with siblings := addUniq c5wb.siblings 0 })) ∧
    (∀ h2 ao2, hlookup h2 0 = some (Obj.bus ao2) → ao2.status ≠ Status.cleared →
      ao2.intfs.any (fun p => p.2 == 1) = false → (1 : Nat) ∉ ao2.buses →
      disconnectF 2 h2 0 1 =
        Res.ok (hset h2 0 (Obj.bus { ao2 with siblings := ao2.siblings.filter (fun s => s != 1) }), []) ∧
      hlookup (hset h2 0 (Obj.bus { ao2 with siblings := ao2.siblings.filter (fun s => s != 1) })) 1 =
        hlookup h2 1) :=
  c5_sibling_symmetry_amended 2 c5wH 0 1 c5wa c5wb 0 rfl rfl (by decide) (by decide)
    (by decide) (by decide) (by decide) (by decide)

/-! ## C1: queryInterfaceEx search order -/

/-- Scanning a concatenation searches the first list, then — when that
yields not-found — the second, threading the heap and visited set. -/
theorem scanQ_append (q : Heap → Nat → List Nat → Res (Option Nat × Heap × List Nat))
    (l1 l2 : List Nat) : ∀ h v, scanQ q h (l1 ++ l2) v =
      match scanQ q h l1 v with
      | Res.ok (none, h', v') => scanQ q h' l2 v'
      | r => r := by
  induction l1 with
  | nil => intro h v; simp [scanQ]
  | cons y t ih =>
    intro h v
    by_cases hy : y ∈ v
    · simp [scanQ, hy, ih]
    · simp only [List.cons_append, scanQ, if_neg hy]
      cases q h y v with
      | ok p =>
        obtain ⟨r, h', v'⟩ := p
        cases r with
        | none => simp [ih]
        | some z => simp
      | err e => simp
      | nofuel => simp

/-- C1 (amended): for every bus and requested identifier, if the
identifier is one of the three root identifiers (Bus,
ExtensibleInterface, Interface) then `queryInterfaceEx` increments the
bus's own count and returns the bus itself as found — regardless of
status.  Otherwise, **provided the bus is not Cleared** (a Cleared bus
throws instead, see C3), the bus marks itself visited and performs the
first-found scan over, in this exact order, its slot interfaces, then
its sibling buses, then its subordinate buses, each entry skipped when
already in the visited set and otherwise delegated to its own
`queryInterfaceEx`; not-found results when the scan is exhausted. -/
theorem c1_query_order (fuel : Nat) (h : Heap) (x iid : Nat) (v : List Nat)
    (bo : BusObj) (hx : hlookup h x = some (Obj.bus bo)) :
    ((iid = iidBus ∨ iid = iidInterfaceEx ∨ iid = iidInterface) →
      queryExF (fuel + 1) h x iid v =
        Res.ok (some x, hset h x (Obj.bus { bo with rc := bo.rc + 1 }), v)) ∧
    (isRootIID iid = false → bo.status ≠ Status.cleared →
      queryExF (fuel + 1) h x iid v =
        scanQ (fun hh y vv => queryExF fuel hh y iid vv) h
          (bo.intfs.map Prod.snd ++ (bo.siblings ++ bo.buses)) (v ++ [x])) := by
  constructor
  · intro hroot
    simp [queryExF, hx, hroot]
  · intro hroot hcl
    have hne := isRootIID_false_elim hroot
    simp only [queryExF, hx, if_neg hne, if_neg hcl, scanQ_append]

/-- Heap for the C1 witness: bus 0 hosting slot 2 and slot 5, sibling
bus 1, subordinate bus 3. -/
def c1wbus : BusObj :=
  { level := 0, busRef := none, cleared := false, intfs := [(0, 2), (0, 5)],
    buses := [3], siblings := [1], status := Status.active, rc := 1 }

def c1wH : Heap :=
  [(0, Obj.bus c1wbus),
   (1, Obj.bus { level := 0, busRef := none, cleared := false, intfs := [], buses := [],
                 siblings := [0], status := Status.active, rc := 1 }),
   (2, Obj.intf { iid := 100, bus := some 0, cleared := false, rc := 1 }),
   (5, Obj.intf { iid := 101, bus := some 0, cleared := false, rc := 1 }),
   (3, Obj.bus { level := 1, busRef := none, cleared := false, intfs := [], buses := [],
                 siblings := [], status := Status.active, rc := 1 })]

/-- Witness for the amended C1 at a concrete heap. -/
theorem c1_witness :
    ((101 = iidBus ∨ 101 = iidInterfaceEx ∨ 101 = iidInterface) →
      queryExF 6 c1wH 0 101 [] =
        Res.ok (some 0, hset c1wH 0 (Obj.bus { c1wbus with rc := c1wbus.rc + 1 }), [])) ∧
    (isRootIID 101 = false → c1wbus.status ≠ Status.cleared →
      queryExF 6 c1wH 0 101 [] =
        scanQ (fun hh y vv => queryExF 5 hh y 101 vv) c1wH
          (c1wbus.intfs.map Prod.snd ++ (c1wbus.siblings ++ c1wbus.buses)) ([] ++ [0])) :=
  c1_query_order 5 c1wH 0 101 [] c1wbus rfl

/-- Cleared bus for the C1 counterexample. -/
def c1cH : Heap :=
  [(0, Obj.bus { level := 0, busRef := none, cleared := true, intfs := [], buses := [],
                 siblings := [], status := Status.cleared, rc := 1 })]

/-- C1 counterexample: the claim quantifies over *every* bus, but on a
Cleared bus a query for a non-root identifier throws
`api already disabled!` instead of performing the visited-marked search
and returning found/not-found. -/
theorem c1_counterexample :
    queryExF 2 c1cH 0 777 [] = Res.err apiClosedMsg := rfl

/-! ## C10: frame property of rejected connects -/

theorem hset_absent (h : Heap) (x : Nat) (o : Obj) (hx : hlookup h x = none) :
    hset h x o = h := by
  induction h with
  | nil => rfl
  | cons e t ih =>
    by_cases hk : e.1 = x
    · simp [hlookup, hk] at hx
    · simp [hlookup, hk] at hx
      simp [hset, hk, ih hx]

theorem hlookup_none_of_not_mem (h : Heap) (x : Nat)
    (hx : x ∉ h.map Prod.fst) : hlookup h x = none := by
  induction h with
  | nil => rfl
  | cons e t ih =>
    simp only [List.map_cons, List.mem_cons, not_or] at hx
    have hne : ¬e.1 = x := fun he => hx.1 he.symm
    simp [hlookup, hne, ih hx.2]

theorem hset_lookup_eq (h : Heap) (x : Nat) (o : Obj)
    (hnodup : (h.map Prod.fst).Nodup) (hx : hlookup h x = some o) :
    hset h x o = h := by
  induction h with
  | nil => rfl
  | cons e t ih =>
    simp only [List.map_cons, List.nodup_cons] at hnodup
    by_cases hk : e.1 = x
    · simp only [hlookup, if_pos hk, Option.some.injEq] at hx
      have hkeys : x ∉ t.map Prod.fst := hk ▸ hnodup.1
      have habs : hset t x o = t := hset_absent t x o (hlookup_none_of_not_mem t x hkeys)
      subst hx
      simp only [hset, if_pos hk, habs]
    · simp only [hlookup, if_neg hk] at hx
      simp [hset, hk, ih hnodup.2 hx]
/-- The scope-guaranteed balancing `unref` after a Bus-identifier probe
restores the heap exactly, provided the answering bus had a nonzero
count before the probe (heap keys duplicate-free). -/
theorem unref_restore (fuel : Nat) (h : Heap) (b : Nat) (bo : BusObj)
    (hnodup : keysNodupB h = true)
    (hb : hlookup h b = some (Obj.bus bo)) (hrc : bo.rc ≠ 0) :
    unrefF (fuel + 1) (hset h b (Obj.bus { bo with rc := bo.rc + 1 })) b = Res.ok (h, []) := by
  have hb1 : hlookup (hset h b (Obj.bus { bo with rc := bo.rc + 1 })) b =
      some (Obj.bus { bo with rc := bo.rc + 1 }) := hlookup_hset_self h b _ _ hb
  have hr0 : ¬bo.rc + 1 = 0 := by omega
  have hr1 : ¬bo.rc + 1 = 1 := by omega
  have hnd : (h.map Prod.fst).Nodup := of_decide_eq_true hnodup
  simp only [unrefF, hb1, rcOf, if_neg hr0, if_neg hr1, setRc, hset_hset_same,
    Nat.add_sub_cancel]
  rw [hset_lookup_eq h b (Obj.bus bo) hnd hb]

/-- The subordinate-accept continuation never returns false. -/
theorem accept2_ne (r : Res Heap) (g : Heap → Res (Heap × List Nat))
    (h' : Heap) (t : List Nat) :
    bindH r (fun h2 => bindH (g h2) (fun p => Res.ok (true, p.1, p.2))) ≠
      Res.ok (false, h', t) := by
  cases r with
  | ok a =>
    simp only [bindH]
    cases g a with
    | ok p => simp [bindH]
    | err e => simp [bindH]
    | nofuel => simp [bindH]
  | err e => simp [bindH]
  | nofuel => simp [bindH]

/-- The sibling-accept continuation never returns false. -/
theorem accept3_ne (r : Res Heap) (g : Heap → Res Heap)
    (k : Heap → Res (Heap × List Nat)) (h' : Heap) (t : List Nat) :
    bindH r (fun h2 => bindH (g h2) (fun h3 => bindH (k h3)
      (fun p => Res.ok (true, p.1, p.2)))) ≠ Res.ok (false, h', t) := by
  cases r with
  | ok a =>
    simp only [bindH]
    cases g a with
    | ok a2 =>
      simp only [bindH]
      cases k a2 with
      | ok p => simp [bindH]
      | err e => simp [bindH]
      | nofuel => simp [bindH]
    | err e => simp [bindH]
    | nofuel => simp [bindH]
  | err e => simp [bindH]
  | nofuel => simp [bindH]

/-- The slot-accept continuation never returns false. -/
theorem accept2b_ne (r : Res Heap) (g : Heap → Res Heap) (h' : Heap) (t : List Nat) :
    bindH r (fun h2 => bindH (g h2) (fun h3 => Res.ok (true, h3, []))) ≠
      Res.ok (false, h', t) := by
  cases r with
  | ok a =>
    simp only [bindH]
    cases g a with
    | ok a2 => simp [bindH]
    | err e => simp [bindH]
    | nofuel => simp [bindH]
  | err e => simp [bindH]
  | nofuel => simp [bindH]

/-- Bus probe with an arbitrary incoming visited set. -/
theorem queryBusProbeV (fuel : Nat) (h : Heap) (b : Nat) (bo : BusObj) (v : List Nat)
    (hb : hlookup h b = some (Obj.bus bo)) :
    queryExF (fuel + 1) h b iidBus v =
      Res.ok (some b, hset h b (Obj.bus { bo with rc := bo.rc + 1 }), v) := by
  simp [queryExF, hb]

theorem iidBus_ne_ex : iidBus ≠ iidInterfaceEx := by decide

theorem iidBus_ne_intf : iidBus ≠ iidInterface := by decide

/-- Probing an unhosted plain interface (with a non-root id) with the
Bus identifier yields not-found and leaves the heap unchanged. -/
theorem query_intf_unhosted (fuel : Nat) (h : Heap) (c : Nat) (co : IntfObj)
    (hc : hlookup h c = some (Obj.intf co)) (hroot : isRootIID co.iid = false)
    (hbusfld : co.bus = none) :
    queryExF (fuel + 1) h c iidBus [] = Res.ok (none, h, [c]) := by
  have h1 : ¬iidBus = co.iid := by
    intro he
    rw [isRootIID, ← he] at hroot
    simp at hroot
  have hcond : ¬(iidBus = co.iid ∨ iidBus = iidInterfaceEx ∨ iidBus = iidInterface) := by
    push_neg
    exact ⟨h1, iidBus_ne_ex, iidBus_ne_intf⟩
  simp only [queryExF, hc, if_neg hcond, hbusfld, List.nil_append]

/-- Probing a hosted plain interface (with a non-root id) with the Bus
identifier delegates to the host bus, which answers with itself. -/
theorem query_intf_hosted (fuel : Nat) (h : Heap) (c bx : Nat) (co : IntfObj)
    (bo : BusObj)
    (hc : hlookup h c = some (Obj.intf co)) (hroot : isRootIID co.iid = false)
    (hbusfld : co.bus = some bx) (hbx : hlookup h bx = some (Obj.bus bo)) :
    queryExF (fuel + 2) h c iidBus [] =
      Res.ok (some bx, hset h bx (Obj.bus { bo with rc := bo.rc + 1 }), [c]) := by
  have h1 : ¬iidBus = co.iid := by
    intro he
    rw [isRootIID, ← he] at hroot
    simp at hroot
  have hnecx : ¬bx = c := by
    intro he
    rw [he, hc] at hbx
    exact Obj.noConfusion (Option.some.inj hbx)
  have hcond : ¬(iidBus = co.iid ∨ iidBus = iidInterfaceEx ∨ iidBus = iidInterface) := by
    push_neg
    exact ⟨h1, iidBus_ne_ex, iidBus_ne_intf⟩
  simp [queryExF, hc, hcond, hbusfld, hnecx, hbx]

/-- Whenever the Bus-identifier probe answers with a bus `b` that has a
nonzero outside count, a false-returning `connect` leaves the heap
exactly unchanged and emits no teardown events. -/
theorem connect_bus_probe_frame (fuel : Nat) (h : Heap) (a cand b : Nat)
    (ao bo : BusObj) (ord : Int) (vv : List Nat)
    (ha : hlookup h a = some (Obj.bus ao)) (hst : ao.status ≠ Status.cleared)
    (hnodup : keysNodupB h = true)
    (hb : hlookup h b = some (Obj.bus bo)) (hrc : bo.rc ≠ 0) (hcand : cand ≠ a)
    (hq : queryExF (fuel + 1) h cand iidBus [] =
      Res.ok (some b, hset h b (Obj.bus { bo with rc := bo.rc + 1 }), vv)) :
    ∀ h' t, connectF (fuel + 1) h a cand ord = Res.ok (false, h', t) → h' = h ∧ t = [] := by
  intro h' t heq
  have hur := unref_restore fuel h b bo hnodup hb hrc
  have hb1 : hlookup (hset h b (Obj.bus { bo with rc := bo.rc + 1 })) b =
      some (Obj.bus { bo with rc := bo.rc + 1 }) := hlookup_hset_self h b _ _ hb
  have hr1 : ¬bo.rc + 1 = 1 := by omega
  by_cases hlt : ao.level < bo.level
  · by_cases hmem : b ∈ ao.buses
    · rw [show connectF (fuel + 1) h a cand ord = Res.ok (false, h, []) from by
        simp only [connectF, ha, if_neg hst, if_neg hcand, hq, hb1, if_pos hlt,
          if_pos hmem, hur, bindH]] at heq
      simp only [Res.ok.injEq, Prod.mk.injEq, true_and] at heq
      exact ⟨heq.1.symm, heq.2.symm⟩
    · rw [show connectF (fuel + 1) h a cand ord =
          bindH (modifyBus (hset (hset h b (Obj.bus { bo with rc := bo.rc + 1 })) b
              (Obj.bus { bo with rc := bo.rc + 1 + 1 })) a
            (fun r => { r with buses := isortByLevel (hset (hset h b (Obj.bus { bo with rc := bo.rc + 1 })) b
              (Obj.bus { bo with rc := bo.rc + 1 + 1 })) (r.buses ++ [b]) }))
            (fun h2 => bindH (unrefF (fuel + 1) h2 b) (fun p => Res.ok (true, p.1, p.2))) from by
        simp only [connectF, ha, if_neg hst, if_neg hcand, hq, hb1, if_pos hlt,
          if_neg hmem]] at heq
      exact absurd heq (accept2_ne _ _ _ _)
  · by_cases hlv : bo.level = ao.level
    · by_cases hbx : b = a
      · rw [show connectF (fuel + 1) h a cand ord = Res.ok (false, h, []) from by
          simp only [connectF, ha, if_neg hst, if_neg hcand, hq, hb1, if_neg hlt,
            if_pos hlv, if_neg hr1, if_pos hbx, hur, bindH]] at heq
        simp only [Res.ok.injEq, Prod.mk.injEq, true_and] at heq
        exact ⟨heq.1.symm, heq.2.symm⟩
      · by_cases hsib : b ∈ ao.siblings
        · rw [show connectF (fuel + 1) h a cand ord = Res.ok (false, h, []) from by
            simp only [connectF, ha, if_neg hst, if_neg hcand, hq, hb1, if_neg hlt,
              if_pos hlv, if_neg hr1, if_neg hbx, if_pos hsib, hur, bindH]] at heq
          simp only [Res.ok.injEq, Prod.mk.injEq, true_and] at heq
          exact ⟨heq.1.symm, heq.2.symm⟩
        · rw [show connectF (fuel + 1) h a cand ord =
              bindH (modifyBus (hset h b (Obj.bus { bo with rc := bo.rc + 1 })) a
                (fun r => { r with siblings := addUniq r.siblings b }))
                (fun h2 => bindH (addSiblingBusF h2 b a)
                  (fun h3 => bindH (unrefF (fuel + 1) h3 b)
                    (fun p => Res.ok (true, p.1, p.2)))) from by
            simp only [connectF, ha, if_neg hst, if_neg hcand, hq, hb1, if_neg hlt,
              if_pos hlv, if_neg hr1, if_neg hbx, if_neg hsib]] at heq
          exact absurd heq (accept3_ne _ _ _ _ _)
    · rw [show connectF (fuel + 1) h a cand ord = Res.ok (false, h, []) from by
        simp only [connectF, ha, if_neg hst, if_neg hcand, hq, hb1, if_neg hlt,
          if_neg hlv, hur, bindH]] at heq
      simp only [Res.ok.injEq, Prod.mk.injEq, true_and] at heq
      exact ⟨heq.1.symm, heq.2.symm⟩

/-- C10 (amended): on a non-Cleared bus, `connect` with the bus itself
returns false and leaves the heap exactly unchanged; and every
false-returning `connect` leaves the bus's collections, its status and
the whole heap unchanged (the probe's temporary reference is balanced
by the scope-guaranteed release) **provided** the object answering the
Bus-identifier probe — the candidate itself, or the host bus of a
hosted interface candidate — retains a nonzero outside reference
count.  (When that count is zero, the balancing release destroys the
answering bus; see the counterexample.) -/
theorem c10_connect_frame_amended (fuel : Nat) (h : Heap) (a : Nat) (ao : BusObj)
    (ord : Int)
    (ha : hlookup h a = some (Obj.bus ao)) (hst : ao.status ≠ Status.cleared)
    (hnodup : keysNodupB h = true) :
    (connectF (fuel + 2) h a a ord = Res.ok (false, h, [])) ∧
    (∀ b bo, hlookup h b = some (Obj.bus bo) → bo.rc ≠ 0 → b ≠ a →
      ∀ h' t, connectF (fuel + 2) h a b ord = Res.ok (false, h', t) → h' = h ∧ t = []) ∧
    (∀ c co, hlookup h c = some (Obj.intf co) → isRootIID co.iid = false →
      co.bus = none → c ≠ a →
      ∀ h' t, connectF (fuel + 2) h a c ord = Res.ok (false, h', t) → h' = h ∧ t = []) ∧
    (∀ c co bx bo, hlookup h c = some (Obj.intf co) → isRootIID co.iid = false →
      co.bus = some bx → hlookup h bx = some (Obj.bus bo) → bo.rc ≠ 0 → c ≠ a →
      ∀ h' t, connectF (fuel + 2) h a c ord = Res.ok (false, h', t) → h' = h ∧ t = []) := by
  refine ⟨connect_self_eq (fuel + 2) h a ao ord ha hst, ?_, ?_, ?_⟩
  · intro b bo hb hrc hba
    exact connect_bus_probe_frame (fuel + 1) h a b b ao bo ord [] ha hst hnodup hb hrc hba
      (queryBusProbeV (fuel + 1) h b bo [] hb)
  · intro c co hc hroot hbusfld hca h' t heq
    have hq := query_intf_unhosted (fuel + 1) h c co hc hroot hbusfld
    by_cases hdup : ao.intfs.any (fun p => p.2 == c) = true
    · rw [show connectF (fuel + 2) h a c ord = Res.ok (false, h, []) from by
        simp only [connectF, ha, if_neg hst, if_neg hca, hq, hdup, hc, if_true, if_pos trivial]] at heq
      simp only [Res.ok.injEq, Prod.mk.injEq, true_and] at heq
      exact ⟨heq.1.symm, heq.2.symm⟩
    · rw [show connectF (fuel + 2) h a c ord =
          bindH (modifyBus (hset h c (setRc (Obj.intf co) (rcOf (Obj.intf co) + 1))) a
            (fun r => { r with intfs := r.intfs ++ [(ord, c)] }))
            (fun h2 => bindH (setBusF h2 c (some a)) (fun h3 => Res.ok (true, h3, []))) from by
        simp only [connectF, ha, if_neg hst, if_neg hca, hq, hc]
        rw [if_neg (by simp [hdup])]] at heq
      exact absurd heq (accept2b_ne _ _ _ _)
  · intro c co bx bo hc hroot hbusfld hbx hrc hca h' t heq
    exact connect_bus_probe_frame (fuel + 1) h a c bx ao bo ord [c] ha hst hnodup hbx hrc hca
      (query_intf_hosted fuel h c bx co bo hc hroot hbusfld hbx) h' t heq

/-- Heap for the C10 counterexample: bus 0 holds one outside
reference; candidate bus 1 (equal level) holds none. -/
def c10cH : Heap :=
  [(0, Obj.bus { level := 0, busRef := none, cleared := false, intfs := [], buses := [],
                 siblings := [], status := Status.active, rc := 1 }),
   (1, Obj.bus { level := 0, busRef := none, cleared := false, intfs := [], buses := [],
                 siblings := [], status := Status.active, rc := 0 })]

/-- C10 counterexample: `bus0.connect(bus1)` returns false, but it does
*not* leave the candidate untouched: the probe raises bus 1's count
from 0 to 1 and the scope-guaranteed balancing release then drops it to
0, destroying bus 1 outright — after the call the candidate no longer
exists (the source comments call this out: a sibling candidate without
outside references would otherwise dangle). -/
theorem c10_counterexample :
    hlookup c10cH 1 =
      some (Obj.bus { level := 0, busRef := none, cleared := false, intfs := [], buses := [],
                      siblings := [], status := Status.active, rc := 0 }) ∧
    connectF 4 c10cH 0 1 0 =
      Res.ok (false,
        [(0, Obj.bus { level := 0, busRef := none, cleared := false, intfs := [], buses := [],
                       siblings := [], status := Status.active, rc := 1 })], []) ∧
    hlookup [(0, Obj.bus { level := 0, busRef := none, cleared := false, intfs := [], buses := [],
                           siblings := [], status := Status.active, rc := 1 })] 1 = none :=
  ⟨rfl, by decide, rfl⟩

/-- Bus record for the C10 witness. -/
def c10wa : BusObj :=
  { level := 0, busRef := none, cleared := false, intfs := [], buses := [],
    siblings := [], status := Status.active, rc := 1 }

/-- Heap for the C10 witness. -/
def c10wH : Heap :=
  [(0, Obj.bus c10wa),
   (1, Obj.bus { level := 0, busRef := none, cleared := false, intfs := [], buses := [],
                 siblings := [5], status := Status.active, rc := 2 })]

/-- Witness for the amended C10 at a concrete heap. -/
theorem c10_witness :
    (connectF 4 c10wH 0 0 0 = Res.ok (false, c10wH, [])) ∧
    (∀ b bo, hlookup c10wH b = some (Obj.bus bo) → bo.rc ≠ 0 → b ≠ 0 →
      ∀ h' t, connectF 4 c10wH 0 b 0 = Res.ok (false, h', t) → h' = c10wH ∧ t = []) ∧
    (∀ c co, hlookup c10wH c = some (Obj.intf co) → isRootIID co.iid = false →
      co.bus = none → c ≠ 0 →
      ∀ h' t, connectF 4 c10wH 0 c 0 = Res.ok (false, h', t) → h' = c10wH ∧ t = []) ∧
    (∀ c co bx bo, hlookup c10wH c = some (Obj.intf co) → isRootIID co.iid = false →
      co.bus = some bx → hlookup c10wH bx = some (Obj.bus bo) → bo.rc ≠ 0 → c ≠ 0 →
      ∀ h' t, connectF 4 c10wH 0 c 0 = Res.ok (false, h', t) → h' = c10wH ∧ t = []) :=
  c10_connect_frame_amended 2 c10wH 0 c10wa 0 rfl (by decide) (by decide)

/-! ## C2: the teardown protocol

Infrastructure: a weakening relation between heaps (levels and kinds of
surviving objects are preserved, collections only shrink), the
well-formedness it preserves, and a frame predicate saying that buses
at or below a given level — other than the bus being torn down — keep
their observable state. -/

theorem hlookup_hremove_ne (h : Heap) (x y : Nat) (hxy : y ≠ x) :
    hlookup (hremove h x) y = hlookup h y := by
  induction h with
  | nil => rfl
  | cons e t ih =>
    simp only [hremove, List.filter_cons] at ih ⊢
    by_cases hk : e.1 = x
    · have hey : ¬e.1 = y := by rw [hk]; exact fun he => hxy he.symm
      simp [hk, hlookup, hey, ih]
      rw [if_neg (fun he => hxy (Eq.symm he))]
    · simp [hk, hlookup, ih]

theorem hlookup_hremove_self (h : Heap) (x : Nat) :
    hlookup (hremove h x) x = none := by
  induction h with
  | nil => rfl
  | cons e t ih =>
    by_cases hk : e.1 = x
    · simpa [hremove, List.filter_cons, hk] using ih
    · simpa [hremove, List.filter_cons, hk, hlookup] using ih

theorem mem_of_hlookup (h : Heap) (x : Nat) (o : Obj)
    (hx : hlookup h x = some o) : (x, o) ∈ h := by
  induction h with
  | nil => simp [hlookup] at hx
  | cons e t ih =>
    by_cases hk : e.1 = x
    · simp only [hlookup, if_pos hk, Option.some.injEq] at hx
      have hxe : (x, o) = e := by rw [← hk, ← hx]
      rw [hxe]
      exact List.mem_cons_self _ _
    · simp only [hlookup, if_neg hk] at hx
      exact List.mem_cons_of_mem e (ih hx)

/-- Per-object weakening: the kind and (for a bus) level are preserved,
collections only shrink, an interface keeps its id and can only lose
its host reference. -/
def objWeak : Obj → Obj → Prop
  | Obj.bus b, Obj.bus b' =>
    b'.level = b.level ∧ b'.buses.Sublist b.buses ∧
    b'.siblings.Sublist b.siblings ∧ b'.intfs.Sublist b.intfs
  | Obj.intf i, Obj.intf i' => i'.iid = i.iid ∧ (i'.bus = i.bus ∨ i'.bus = none)
  | _, _ => False

/-- Heap weakening: every surviving object weakens its old self. -/
def WeakensTo (h h' : Heap) : Prop :=
  ∀ y o', hlookup h' y = some o' → ∃ o, hlookup h y = some o ∧ objWeak o o'

theorem objWeak_refl (o : Obj) : objWeak o o := by
  cases o with
  | intf i => exact ⟨rfl, Or.inl rfl⟩
  | bus b => exact ⟨rfl, List.Sublist.refl _, List.Sublist.refl _, List.Sublist.refl _⟩

theorem objWeak_trans {a b c : Obj} (h1 : objWeak a b) (h2 : objWeak b c) :
    objWeak a c := by
  cases a with
  | intf i =>
    cases b with
    | intf i2 =>
      cases c with
      | intf i3 =>
        obtain ⟨e1, d1⟩ := h1
        obtain ⟨e2, d2⟩ := h2
        refine ⟨e2.trans e1, ?_⟩
        rcases d2 with d2 | d2
        · rw [d2]; exact d1
        · exact Or.inr d2
      | bus b3 => exact absurd h2 (by simp [objWeak])
    | bus b2 => exact absurd h1 (by simp [objWeak])
  | bus b1 =>
    cases b with
    | intf i2 => exact absurd h1 (by simp [objWeak])
    | bus b2 =>
      cases c with
      | intf i3 => exact absurd h2 (by simp [objWeak])
      | bus b3 =>
        obtain ⟨e1, s1, s2, s3⟩ := h1
        obtain ⟨e2, u1, u2, u3⟩ := h2
        exact ⟨e2.trans e1, u1.trans s1, u2.trans s2, u3.trans s3⟩

theorem weakens_refl (h : Heap) : WeakensTo h h :=
  fun y o' hy => ⟨o', hy, objWeak_refl o'⟩

theorem weakens_trans {h1 h2 h3 : Heap}
    (w1 : WeakensTo h1 h2) (w2 : WeakensTo h2 h3) : WeakensTo h1 h3 := by
  intro y o3 hy
  obtain ⟨o2, hy2, hw2⟩ := w2 y o3 hy
  obtain ⟨o1, hy1, hw1⟩ := w1 y o2 hy2
  exact ⟨o1, hy1, objWeak_trans hw1 hw2⟩

theorem weakens_hset (h : Heap) (x : Nat) (o o2 : Obj)
    (hx : hlookup h x = some o) (hw : objWeak o o2) :
    WeakensTo h (hset h x o2) := by
  intro y o' hy
  by_cases hxy : y = x
  · subst hxy
    rw [hlookup_hset_self h y o2 o hx] at hy
    cases Option.some.inj hy
    exact ⟨o, hx, hw⟩
  · rw [hlookup_hset_ne h x y o2 hxy] at hy
    exact ⟨o', hy, objWeak_refl o'⟩

theorem weakens_hremove (h : Heap) (x : Nat) : WeakensTo h (hremove h x) := by
  intro y o' hy
  by_cases hxy : y = x
  · subst hxy
    rw [hlookup_hremove_self] at hy
    exact absurd hy (by simp)
  · rw [hlookup_hremove_ne h x y hxy] at hy
    exact ⟨o', hy, objWeak_refl o'⟩

/-- Propositional form of `levelSoundB`. -/
def levelSoundP (h : Heap) : Prop :=
  (∀ x bo, hlookup h x = some (Obj.bus bo) →
    (∀ b ∈ bo.buses, ∀ o, hlookup h b = some o →
      ∃ co, o = Obj.bus co ∧ bo.level < co.level) ∧
    (∀ s ∈ bo.siblings, s ≠ x ∧ ∀ o, hlookup h s = some o →
      ∃ co, o = Obj.bus co ∧ co.level = bo.level) ∧
    (∀ p ∈ bo.intfs, ∀ o, hlookup h (Prod.snd p) = some o → ∃ io, o = Obj.intf io)) ∧
  (∀ x io, hlookup h x = some (Obj.intf io) →
    isRootIID io.iid = false ∧
    (∀ b, io.bus = some b → ∀ io2, hlookup h b ≠ some (Obj.intf io2)))

theorem levelSoundP_of_B (h : Heap) (hb : levelSoundB h = true) : levelSoundP h := by
  rw [levelSoundB, List.all_eq_true] at hb
  constructor
  · intro x bo hx
    have hmem := mem_of_hlookup h x (Obj.bus bo) hx
    have := hb _ hmem
    simp only [Bool.and_eq_true, List.all_eq_true] at this
    obtain ⟨⟨hbuses, hsibs⟩, hslots⟩ := this
    refine ⟨?_, ?_, ?_⟩
    · intro b hbmem o ho
      have := hbuses b hbmem
      rw [ho] at this
      cases o with
      | bus co => exact ⟨co, rfl, by simpa using this⟩
      | intf io => simp at this
    · intro st hsmem
      have := hsibs st hsmem
      simp only [Bool.and_eq_true, bne_iff_ne, ne_eq] at this
      refine ⟨this.1, ?_⟩
      intro o ho
      have h2 := this.2
      rw [ho] at h2
      cases o with
      | bus co => exact ⟨co, rfl, by simpa using h2⟩
      | intf io => simp at h2
    · intro p hpmem o ho
      have := hslots p hpmem
      rw [ho] at this
      cases o with
      | bus co => simp at this
      | intf io => exact ⟨io, rfl⟩
  · intro x io hx
    have hmem := mem_of_hlookup h x (Obj.intf io) hx
    have := hb _ hmem
    simp only [Bool.and_eq_true] at this
    refine ⟨by simpa using this.1, ?_⟩
    intro b hbf io2 ho
    have h2 := this.2
    simp [hbf, ho] at h2

theorem levelSoundP_weakens {h h' : Heap} (hp : levelSoundP h) (hw : WeakensTo h h') :
    levelSoundP h' := by
  obtain ⟨hbus, hintf⟩ := hp
  constructor
  · intro x bo' hx'
    obtain ⟨o, hx, how⟩ := hw x _ hx'
    cases o with
    | intf i => exact absurd how (by simp [objWeak])
    | bus bo =>
      obtain ⟨hlv, hsubb, hsubs, hsubi⟩ := how
      obtain ⟨hb1, hb2, hb3⟩ := hbus x bo hx
      refine ⟨?_, ?_, ?_⟩
      · intro b hbm o' ho'
        obtain ⟨o, ho, how2⟩ := hw b _ ho'
        obtain ⟨co, rfl, hco⟩ := hb1 b (hsubb.subset hbm) o ho
        cases o' with
        | intf i' => exact absurd how2 (by simp [objWeak])
        | bus co' => exact ⟨co', rfl, by rw [hlv, how2.1]; exact hco⟩
      · intro st hsm
        obtain ⟨hne, hrest⟩ := hb2 st (hsubs.subset hsm)
        refine ⟨hne, ?_⟩
        intro o' ho'
        obtain ⟨o, ho, how2⟩ := hw st _ ho'
        obtain ⟨co, rfl, hco⟩ := hrest o ho
        cases o' with
        | intf i' => exact absurd how2 (by simp [objWeak])
        | bus co' => exact ⟨co', rfl, by rw [hlv, how2.1]; exact hco⟩
      · intro p hpm o' ho'
        obtain ⟨o, ho, how2⟩ := hw (Prod.snd p) _ ho'
        obtain ⟨io, rfl⟩ := hb3 p (hsubi.subset hpm) o ho
        cases o' with
        | intf i' => exact ⟨i', rfl⟩
        | bus co' => exact absurd how2 (by simp [objWeak])
  · intro x io' hx'
    obtain ⟨o, hx, how⟩ := hw x _ hx'
    cases o with
    | bus b => exact absurd how (by simp [objWeak])
    | intf io =>
      obtain ⟨hiid, hbusf⟩ := how
      obtain ⟨hroot, hnochain⟩ := hintf x io hx
      refine ⟨by rw [hiid]; exact hroot, ?_⟩
      intro b hbf io2 ho'
      obtain ⟨o, ho, how2⟩ := hw b _ ho'
      cases o with
      | bus bb => exact absurd how2 (by simp [objWeak])
      | intf ioo =>
        rcases hbusf with he | he
        · exact hnochain b (he ▸ hbf) ioo ho
        · rw [he] at hbf
          exact Option.noConfusion hbf

/-- The frame of the teardown of bus `x` (level `L`): every *other* bus
at level ≤ `L` keeps its level, status, finished flag, slot and
subordinate collections (its sibling set may shrink). -/
def KeepLE (L : Int) (x : Nat) (h h' : Heap) : Prop :=
  ∀ y bo, y ≠ x → hlookup h y = some (Obj.bus bo) → bo.level ≤ L →
    ∃ bo', hlookup h' y = some (Obj.bus bo') ∧ bo'.level = bo.level ∧
      bo'.status = bo.status ∧ bo'.cleared = bo.cleared ∧
      bo'.intfs = bo.intfs ∧ bo'.buses = bo.buses ∧
      bo'.siblings.Sublist bo.siblings

theorem keepLE_refl (L : Int) (x : Nat) (h : Heap) : KeepLE L x h h :=
  fun y bo _ hy _ => ⟨bo, hy, rfl, rfl, rfl, rfl, rfl, List.Sublist.refl _⟩

theorem keepLE_trans {L : Int} {x : Nat} {h1 h2 h3 : Heap}
    (k1 : KeepLE L x h1 h2) (k2 : KeepLE L x h2 h3) : KeepLE L x h1 h3 := by
  intro y bo hyx hy hle
  obtain ⟨bo2, hy2, e1, e2, e3, e4, e5, s1⟩ := k1 y bo hyx hy hle
  obtain ⟨bo3, hy3, f1, f2, f3, f4, f5, s2⟩ := k2 y bo2 hyx hy2 (by rw [e1]; exact hle)
  exact ⟨bo3, hy3, f1.trans e1, f2.trans e2, f3.trans e3, f4.trans e4, f5.trans e5,
    s2.trans s1⟩

/-- `KeepLE` for a heap change that touches only key `z`, which is not
a bus (or not present). -/
theorem keepLE_of_nonbus_touch {L : Int} {x : Nat} {h h' : Heap} (z : Nat)
    (hz : ∀ bo2, hlookup h z ≠ some (Obj.bus bo2))
    (hother : ∀ y, y ≠ z → hlookup h' y = hlookup h y) : KeepLE L x h h' := by
  intro y bo hyx hy hle
  have hyz : y ≠ z := by
    intro he
    exact hz bo (he ▸ hy)
  exact ⟨bo, by rw [hother y hyz]; exact hy, rfl, rfl, rfl, rfl, rfl, List.Sublist.refl _⟩

/-- `z` does not currently hold a bus object. -/
def NotBus (h : Heap) (z : Nat) : Prop :=
  ∀ b2, hlookup h z ≠ some (Obj.bus b2)

theorem notBus_weakens {h h' : Heap} {z : Nat} (hn : NotBus h z)
    (hw : WeakensTo h h') : NotBus h' z := by
  intro b2 hz
  obtain ⟨o, ho, how⟩ := hw z _ hz
  cases o with
  | bus b => exact hn b ho
  | intf i => exact absurd how (by simp [objWeak])

/-- If present, `z` is a bus of level strictly above `L`. -/
def BusAbove (h : Heap) (L : Int) (z : Nat) : Prop :=
  ∀ o, hlookup h z = some o → ∃ b2, o = Obj.bus b2 ∧ L < b2.level

theorem busAbove_weakens {h h' : Heap} {L : Int} {z : Nat} (hn : BusAbove h L z)
    (hw : WeakensTo h h') : BusAbove h' L z := by
  intro o' ho'
  obtain ⟨o, ho, how⟩ := hw z _ ho'
  obtain ⟨b2, rfl, hlv⟩ := hn o ho
  cases o' with
  | intf i => exact absurd how (by simp [objWeak])
  | bus b2' => exact ⟨b2', rfl, by rw [how.1]; exact hlv⟩

/-- Frame for a heap step that shrinks one bus's sibling set. -/
theorem keepLE_sib_shrink (L : Int) (x : Nat) (h : Heap) (p : Nat) (bp : BusObj)
    (s' : List Nat) (hsub : s'.Sublist bp.siblings)
    (hp : hlookup h p = some (Obj.bus bp)) (hne : p ≠ x) :
    KeepLE L x h (hset h p (Obj.bus { bp with siblings := s' })) := by
  intro y bo hyx hy hle
  by_cases hyp : y = p
  · subst hyp
    rw [hp] at hy
    cases Option.some.inj hy
    exact ⟨{ bp with siblings := s' }, hlookup_hset_self h y _ _ hp, rfl, rfl, rfl,
      rfl, rfl, hsub⟩
  · exact ⟨bo, by rw [hlookup_hset_ne h p y _ hyp]; exact hy, rfl, rfl, rfl, rfl, rfl,
      List.Sublist.refl _⟩

/-- Frame for a heap step that touches only a non-bus key. -/
theorem keepLE_intf_touch (L : Int) (x z : Nat) (h : Heap) (o2 : Obj)
    (hz : NotBus h z) : KeepLE L x h (hset h z o2) := by
  intro y bo hyx hy hle
  have hyz : y ≠ z := fun he => hz bo (he ▸ hy)
  exact ⟨bo, by rw [hlookup_hset_ne h z y _ hyz]; exact hy, rfl, rfl, rfl, rfl, rfl,
    List.Sublist.refl _⟩

/-- Frame for removing a non-bus key. -/
theorem keepLE_intf_remove (L : Int) (x z : Nat) (h : Heap)
    (hz : NotBus h z) : KeepLE L x h (hremove h z) := by
  intro y bo hyx hy hle
  have hyz : y ≠ z := fun he => hz bo (he ▸ hy)
  exact ⟨bo, by rw [hlookup_hremove_ne h z y hyz]; exact hy, rfl, rfl, rfl, rfl, rfl,
    List.Sublist.refl _⟩

/-- Post-condition of the teardown family run on `x`: the heap weakens,
and — when `x` is an interface — nothing else changes at all, while —
when `x` is a bus of level `L` — every other bus at level ≤ `L` keeps
its observable state. -/
def TdPost (h : Heap) (x : Nat) (h' : Heap) : Prop :=
  WeakensTo h h' ∧
  (∀ io, hlookup h x = some (Obj.intf io) → ∀ y, y ≠ x → hlookup h' y = hlookup h y) ∧
  (∀ bo, hlookup h x = some (Obj.bus bo) → KeepLE bo.level x h h')

/-- The master induction statement at a given fuel. -/
def MasterAt (fuel : Nat) : Prop :=
  ∀ h x h' t, levelSoundP h →
    ((unrefF fuel h x = Res.ok (h', t) → TdPost h x h') ∧
     (finishF fuel h x = Res.ok (h', t) → TdPost h x h') ∧
     (resetF fuel h x = Res.ok (h', t) → TdPost h x h'))

/-- Slots of the given (already reversed) slot list finished by one
teardown pass. -/
def passSlots (l : List (Int × Nat)) (pass : Int) : List Nat :=
  (l.filter (fun q => q.1 == pass)).map Prod.snd

/-- The claim-side description of the slot-finish order: three passes
0, 1, 2, each walking the slot vector in reverse insertion order. -/
def passIds (l : List (Int × Nat)) : List Nat :=
  passSlots l.reverse 0 ++ (passSlots l.reverse 1 ++ passSlots l.reverse 2)

/-- Shape of the subordinate-teardown trace: one `finish()` event per
listed bus, in list order, each followed by its own nested events. -/
def subTraceShape : List Nat → List Nat → Prop
  | [], t => t = []
  | b :: l, t => ∃ t1 t2, t = b :: (t1 ++ t2) ∧ subTraceShape l t2

/-- Phase 1 of `reset`: notifying each sibling only shrinks sibling
sets, preserves well-formedness, keeps every bus's observable state
(up to sibling shrinking) and does not touch `x` itself. -/
theorem sibPhase_spec (x : Nat) :
    ∀ (l : List Nat) (h hres : Heap),
      levelSoundP h →
      (∀ p ∈ l, p ≠ x) →
      seqFoldP (fun hh p => removeSiblingBusF hh p x) h l = Res.ok hres →
      levelSoundP hres ∧ WeakensTo h hres ∧ (∀ L, KeepLE L x h hres) ∧
        hlookup hres x = hlookup h x := by
  intro l
  induction l with
  | nil =>
    intro h hres hp hmem hrun
    simp only [seqFoldP, Res.ok.injEq] at hrun
    subst hrun
    exact ⟨hp, weakens_refl h, fun L => keepLE_refl L x h, rfl⟩
  | cons p t ih =>
    intro h hres hp hmem hrun
    simp only [seqFoldP, bindH] at hrun
    cases hrm : removeSiblingBusF h p x with
    | err e => simp [hrm] at hrun
    | nofuel => simp [hrm] at hrun
    | ok h1 =>
      simp only [hrm] at hrun
      have hpx : p ≠ x := hmem p (List.mem_cons_self p t)
      obtain ⟨bp, hbp, h1eq⟩ : ∃ bp, hlookup h p = some (Obj.bus bp) ∧
          h1 = hset h p (Obj.bus { bp with siblings := bp.siblings.filter (fun s2 => s2 != x) }) := by
        cases hl : hlookup h p with
        | none =>
          simp only [removeSiblingBusF, hl] at hrm
          exact absurd hrm (by simp)
        | some o =>
          cases o with
          | intf i =>
            simp only [removeSiblingBusF, hl] at hrm
            exact absurd hrm (by simp)
          | bus bp =>
            by_cases hcl : bp.status = Status.cleared
            · simp only [removeSiblingBusF, hl, if_pos hcl] at hrm
              exact absurd hrm (by simp)
            · simp only [removeSiblingBusF, hl, if_neg hcl] at hrm
              exact ⟨bp, rfl, (Res.ok.inj hrm).symm⟩
      have hw1 : WeakensTo h h1 := by
        rw [h1eq]
        exact weakens_hset h p _ _ hbp
          ⟨rfl, List.Sublist.refl _, List.filter_sublist _, List.Sublist.refl _⟩
      have hk1 : ∀ L, KeepLE L x h h1 := by
        intro L
        rw [h1eq]
        exact keepLE_sib_shrink L x h p bp _ (List.filter_sublist _) hbp hpx
      have hx1 : hlookup h1 x = hlookup h x := by
        rw [h1eq, hlookup_hset_ne h p x _ (fun he => hpx he.symm)]
      obtain ⟨hp2, hw2, hk2, hx2⟩ := ih h1 hres (levelSoundP_weakens hp hw1)
        (fun q hq => hmem q (List.mem_cons_of_mem p hq)) hrun
      exact ⟨hp2, weakens_trans hw1 hw2, fun L => keepLE_trans (hk1 L) (hk2 L),
        hx2.trans hx1⟩

/-- `finish()` on a non-bus id: emits exactly its own event and touches
only that key. -/
theorem finish_intf_step (fuel : Nat) (h : Heap) (i : Nat) (h1 : Heap) (t1 : List Nat)
    (hni : NotBus h i) (hrun : finishF fuel h i = Res.ok (h1, t1)) :
    t1 = [i] ∧ WeakensTo h h1 ∧ (∀ y, y ≠ i → hlookup h1 y = hlookup h y) := by
  cases fuel with
  | zero => simp [finishF] at hrun
  | succ f =>
    cases hl : hlookup h i with
    | none => simp [finishF, hl] at hrun
    | some o =>
      cases o with
      | bus b => exact absurd hl (hni b)
      | intf io =>
        by_cases hcl : io.cleared
        · simp only [finishF, hl, if_pos hcl, Res.ok.injEq, Prod.mk.injEq] at hrun
          obtain ⟨rfl, rfl⟩ := hrun
          exact ⟨rfl, weakens_refl h, fun y _ => rfl⟩
        · simp only [finishF, hl, if_neg hcl, Res.ok.injEq, Prod.mk.injEq] at hrun
          obtain ⟨rfl, rfl⟩ := hrun
          refine ⟨rfl, weakens_hset h i _ _ hl ⟨rfl, Or.inr rfl⟩, ?_⟩
          intro y hy
          exact hlookup_hset_ne h i y _ hy
/-- `setBus(nullptr)` on a non-bus id: always succeeds, touching only
that key. -/
theorem setbus_none_step (h : Heap) (i : Nat) (h1 : Heap)
    (hni : NotBus h i) (hrun : setBusF h i none = Res.ok h1) :
    WeakensTo h h1 ∧ (∀ y, y ≠ i → hlookup h1 y = hlookup h y) := by
  cases hl : hlookup h i with
  | none => simp [setBusF, hl] at hrun
  | some o =>
    cases o with
    | bus b => exact absurd hl (hni b)
    | intf io =>
      simp only [setBusF, hl, Option.isSome_none, Bool.and_false, Bool.false_eq_true,
        if_false, Res.ok.injEq] at hrun
      subst hrun
      refine ⟨weakens_hset h i _ _ hl ⟨rfl, Or.inr rfl⟩, ?_⟩
      intro y hy
      exact hlookup_hset_ne h i y _ hy

/-- `unref()` on a non-bus id: no trace, touches only that key. -/
theorem unref_intf_step (fuel : Nat) (h : Heap) (i : Nat) (h1 : Heap) (t1 : List Nat)
    (hni : NotBus h i) (hrun : unrefF fuel h i = Res.ok (h1, t1)) :
    t1 = [] ∧ WeakensTo h h1 ∧ (∀ y, y ≠ i → hlookup h1 y = hlookup h y) := by
  cases fuel with
  | zero => simp [unrefF] at hrun
  | succ f =>
    cases hl : hlookup h i with
    | none => simp [unrefF, hl] at hrun
    | some o =>
      cases o with
      | bus b => exact absurd hl (hni b)
      | intf io =>
        by_cases h0 : io.rc = 0
        · simp [unrefF, hl, rcOf, h0] at hrun
        · by_cases h1c : io.rc = 1
          · simp only [unrefF, hl, rcOf, if_neg h0, if_pos h1c, Res.ok.injEq,
              Prod.mk.injEq] at hrun
            obtain ⟨rfl, rfl⟩ := hrun
            refine ⟨rfl, weakens_hremove h i, ?_⟩
            intro y hy
            exact hlookup_hremove_ne h i y hy
          · simp only [unrefF, hl, rcOf, if_neg h0, if_neg h1c, Res.ok.injEq,
              Prod.mk.injEq] at hrun
            obtain ⟨rfl, rfl⟩ := hrun
            refine ⟨rfl, weakens_hset h i _ _ hl ⟨rfl, Or.inl rfl⟩, ?_⟩
            intro y hy
            exact hlookup_hset_ne h i y _ hy
/-- One teardown pass over (already reversed) slots: finishes exactly
the matching slots in order, touches only slot keys. -/
theorem passInner_spec (fuel : Nat) (x : Nat) (pass : Int) :
    ∀ (l : List (Int × Nat)) (h hres : Heap) (tr : List Nat),
      levelSoundP h →
      (∀ q ∈ l, NotBus h q.2) →
      (∀ q ∈ l, q.2 ≠ x) →
      passInner (finishF fuel) pass h l = Res.ok (hres, tr) →
      levelSoundP hres ∧ WeakensTo h hres ∧ (∀ L, KeepLE L x h hres) ∧
        hlookup hres x = hlookup h x ∧ tr = passSlots l pass := by
  intro l
  induction l with
  | nil =>
    intro h hres tr hp hnb hnx hrun
    simp only [passInner, Res.ok.injEq, Prod.mk.injEq] at hrun
    obtain ⟨rfl, rfl⟩ := hrun
    exact ⟨hp, weakens_refl h, fun L => keepLE_refl L x h, rfl, rfl⟩
  | cons q t ih =>
    intro h hres tr hp hnb hnx hrun
    obtain ⟨ord, i⟩ := q
    have hnbi : NotBus h i := hnb (ord, i) (List.mem_cons_self _ _)
    have hnxi : i ≠ x := hnx (ord, i) (List.mem_cons_self _ _)
    by_cases hop : ord = pass
    · simp only [passInner, if_pos hop, tbind] at hrun
      cases hfi : finishF fuel h i with
      | err e => simp [hfi] at hrun
      | nofuel => simp [hfi] at hrun
      | ok p1 =>
        obtain ⟨h1, t1⟩ := p1
        simp only [hfi] at hrun
        cases hrec : passInner (finishF fuel) pass h1 t with
        | err e => simp [hrec] at hrun
        | nofuel => simp [hrec] at hrun
        | ok p2 =>
          obtain ⟨h2, t2⟩ := p2
          simp only [hrec, Res.ok.injEq, Prod.mk.injEq] at hrun
          obtain ⟨rfl, rfl⟩ := hrun
          obtain ⟨rfl, hw1, hother⟩ := finish_intf_step fuel h i h1 t1 hnbi hfi
          have hk1 : ∀ L, KeepLE L x h h1 := fun L =>
            keepLE_of_nonbus_touch i hnbi hother
          obtain ⟨hp2, hw2, hk2, hx2, rfl⟩ := ih h1 h2 t2 (levelSoundP_weakens hp hw1)
            (fun q2 hq2 => notBus_weakens (hnb q2 (List.mem_cons_of_mem _ hq2)) hw1)
            (fun q2 hq2 => hnx q2 (List.mem_cons_of_mem _ hq2)) hrec
          refine ⟨hp2, weakens_trans hw1 hw2, fun L => keepLE_trans (hk1 L) (hk2 L),
            hx2.trans (hother x (fun he => hnxi he.symm)), ?_⟩
          simp [passSlots, List.filter_cons, hop]
    · simp only [passInner, if_neg hop] at hrun
      obtain ⟨hp2, hw2, hk2, hx2, rfl⟩ := ih h hres tr hp
        (fun q2 hq2 => hnb q2 (List.mem_cons_of_mem _ hq2))
        (fun q2 hq2 => hnx q2 (List.mem_cons_of_mem _ hq2)) hrun
      refine ⟨hp2, hw2, hk2, hx2, ?_⟩
      have : ((ord, i).1 == pass) = false := by
        simp only [beq_eq_false_iff_ne, ne_eq]
        exact hop
      simp [passSlots, List.filter_cons, this]
/-- The full three-pass loop of `reset`. -/
theorem passLoop_spec (fuel : Nat) (x : Nat) (l : List (Int × Nat))
    (h hres : Heap) (tr : List Nat)
    (hp : levelSoundP h)
    (hnb : ∀ q ∈ l, NotBus h q.2)
    (hnx : ∀ q ∈ l, q.2 ≠ x)
    (hrun : passLoop (finishF fuel) l h = Res.ok (hres, tr)) :
    levelSoundP hres ∧ WeakensTo h hres ∧ (∀ L, KeepLE L x h hres) ∧
      hlookup hres x = hlookup h x ∧ tr = passIds l := by
  have hnbr : ∀ q ∈ l.reverse, NotBus h q.2 := fun q hq => hnb q (List.mem_reverse.mp hq)
  have hnxr : ∀ q ∈ l.reverse, q.2 ≠ x := fun q hq => hnx q (List.mem_reverse.mp hq)
  rw [passLoop] at hrun
  cases h0 : passInner (finishF fuel) 0 h l.reverse with
  | err e => simp [h0, tbind] at hrun
  | nofuel => simp [h0, tbind] at hrun
  | ok p0 =>
    obtain ⟨h1, t1⟩ := p0
    obtain ⟨hp1, hw1, hk1, hx1, rfl⟩ := passInner_spec fuel x 0 l.reverse h h1 t1 hp hnbr hnxr h0
    simp only [h0, tbind] at hrun
    cases h1r : passInner (finishF fuel) 1 h1 l.reverse with
    | err e => simp [h1r] at hrun
    | nofuel => simp [h1r] at hrun
    | ok p1 =>
      obtain ⟨h2, t2⟩ := p1
      obtain ⟨hp2, hw2, hk2, hx2, rfl⟩ := passInner_spec fuel x 1 l.reverse h1 h2 t2 hp1
        (fun q hq => notBus_weakens (hnbr q hq) hw1) hnxr h1r
      simp only [h1r] at hrun
      cases h2r : passInner (finishF fuel) 2 h2 l.reverse with
      | err e => simp [h2r] at hrun
      | nofuel => simp [h2r] at hrun
      | ok p2 =>
        obtain ⟨h3, t3⟩ := p2
        obtain ⟨hp3, hw3, hk3, hx3, rfl⟩ := passInner_spec fuel x 2 l.reverse h2 h3 t3 hp2
          (fun q hq => notBus_weakens (notBus_weakens (hnbr q hq) hw1) hw2) hnxr h2r
        simp only [h2r, Res.ok.injEq, Prod.mk.injEq] at hrun
        obtain ⟨rfl, rfl⟩ := hrun
        refine ⟨hp3, weakens_trans hw1 (weakens_trans hw2 hw3),
          fun L => keepLE_trans (hk1 L) (keepLE_trans (hk2 L) (hk3 L)),
          hx3.trans (hx2.trans hx1), ?_⟩
        simp [passIds]
/-- Phase 3 of `reset` — releasing the slots: detach and unref each
slot; no `finish` events, only slot keys touched. -/
theorem slotRelease_spec (fuel : Nat) (x : Nat) :
    ∀ (l : List Nat) (h hres : Heap) (tr : List Nat),
      levelSoundP h →
      (∀ i ∈ l, NotBus h i) →
      (∀ i ∈ l, i ≠ x) →
      slotRelease (unrefF fuel) h l = Res.ok (hres, tr) →
      levelSoundP hres ∧ WeakensTo h hres ∧ (∀ L, KeepLE L x h hres) ∧
        hlookup hres x = hlookup h x ∧ tr = [] := by
  intro l
  induction l with
  | nil =>
    intro h hres tr hp hnb hnx hrun
    simp only [slotRelease, Res.ok.injEq, Prod.mk.injEq] at hrun
    obtain ⟨rfl, rfl⟩ := hrun
    exact ⟨hp, weakens_refl h, fun L => keepLE_refl L x h, rfl, rfl⟩
  | cons i t ih =>
    intro h hres tr hp hnb hnx hrun
    have hnbi : NotBus h i := hnb i (List.mem_cons_self _ _)
    have hnxi : i ≠ x := hnx i (List.mem_cons_self _ _)
    simp only [slotRelease] at hrun
    cases hsb : setBusF h i none with
    | err e => simp [hsb, liftT, tbind] at hrun
    | nofuel => simp [hsb, liftT, tbind] at hrun
    | ok h1 =>
      obtain ⟨hw1, hother1⟩ := setbus_none_step h i h1 hnbi hsb
      simp only [hsb, liftT, tbind] at hrun
      cases hur : unrefF fuel h1 i with
      | err e => simp [hur] at hrun
      | nofuel => simp [hur] at hrun
      | ok p1 =>
        obtain ⟨h2, t2⟩ := p1
        obtain ⟨rfl, hw2, hother2⟩ := unref_intf_step fuel h1 i h2 t2
          (notBus_weakens hnbi hw1) hur
        simp only [hur] at hrun
        cases hrec : slotRelease (unrefF fuel) h2 t with
        | err e => simp [hrec] at hrun
        | nofuel => simp [hrec] at hrun
        | ok p2 =>
          obtain ⟨h3, t3⟩ := p2
          simp only [hrec, Res.ok.injEq, Prod.mk.injEq] at hrun
          obtain ⟨rfl, rfl⟩ := hrun
          have hw12 := weakens_trans hw1 hw2
          have hother12 : ∀ y, y ≠ i → hlookup h2 y = hlookup h y := fun y hy =>
            (hother2 y hy).trans (hother1 y hy)
          obtain ⟨hp3, hw3, hk3, hx3, rfl⟩ := ih h2 h3 t3 (levelSoundP_weakens hp hw12)
            (fun j hj => notBus_weakens (hnb j (List.mem_cons_of_mem _ hj)) hw12)
            (fun j hj => hnx j (List.mem_cons_of_mem _ hj)) hrec
          refine ⟨hp3, weakens_trans hw12 hw3,
            fun L => keepLE_trans (keepLE_of_nonbus_touch i hnbi hother12) (hk3 L),
            hx3.trans (hother12 x (fun he => hnxi he.symm)), by simp⟩
/-- A callee-centric frame at a strictly higher level yields the frame
at the lower level, for any protected bus. -/
theorem keepLE_transfer (L : Int) (x b : Nat) (b2 : BusObj) (h h1 : Heap)
    (hb : hlookup h b = some (Obj.bus b2)) (hgt : L < b2.level)
    (hK : KeepLE b2.level b h h1) : KeepLE L x h h1 := by
  intro y boy hyx hy hle
  have hyb : y ≠ b := by
    intro he
    subst he
    rw [hb] at hy
    cases Option.some.inj hy
    omega
  exact hK y boy hyb hy (by omega)
/-- `finish()` on a (present) bus emits its own event first. -/
theorem finish_bus_trace (fuel : Nat) (h : Heap) (b : Nat) (h1 : Heap) (t1 : List Nat)
    (hab : ∀ o, hlookup h b = some o → ∃ b2, o = Obj.bus b2)
    (hrun : finishF fuel h b = Res.ok (h1, t1)) : ∃ trest, t1 = b :: trest := by
  cases fuel with
  | zero => simp [finishF] at hrun
  | succ f =>
    cases hl : hlookup h b with
    | none => simp [finishF, hl] at hrun
    | some o =>
      obtain ⟨b2, rfl⟩ := hab o hl
      by_cases hcl : b2.cleared
      · simp only [finishF, hl, if_pos hcl, Res.ok.injEq, Prod.mk.injEq] at hrun
        exact ⟨[], hrun.2.symm⟩
      · simp only [finishF, hl, if_neg hcl] at hrun
        cases hrs : resetF f (hset h b (Obj.bus { b2 with cleared := true, busRef := none })) b with
        | err e => simp [hrs] at hrun
        | nofuel => simp [hrs] at hrun
        | ok p =>
          obtain ⟨hh, t'⟩ := p
          simp only [hrs, Res.ok.injEq, Prod.mk.injEq] at hrun
          exact ⟨t', hrun.2.symm⟩

/-- Phase 4 of `reset`: tearing down each subordinate (finish, detach,
unref) preserves well-formedness, keeps every bus at or below level `L`
(and `x`'s own record) intact, and produces a trace with one `finish`
event per subordinate, in list order, each followed by its nested
events. -/
theorem busTeardown_spec (fuel : Nat) (IH : MasterAt fuel) (x : Nat) (L : Int) :
    ∀ (l : List Nat) (h hres : Heap) (tr : List Nat) (xr : BusObj),
      levelSoundP h →
      hlookup h x = some (Obj.bus xr) → xr.level = L →
      (∀ b ∈ l, BusAbove h L b) →
      busTeardown (finishF fuel) (unrefF fuel) h l = Res.ok (hres, tr) →
      levelSoundP hres ∧ WeakensTo h hres ∧ KeepLE L x h hres ∧
        (∃ xr', hlookup hres x = some (Obj.bus xr') ∧ xr'.level = xr.level ∧
          xr'.status = xr.status ∧ xr'.cleared = xr.cleared ∧ xr'.intfs = xr.intfs ∧
          xr'.buses = xr.buses ∧ xr'.siblings.Sublist xr.siblings) ∧
        subTraceShape l tr := by
  intro l
  induction l with
  | nil =>
    intro h hres tr xr hp hx hxl hab hrun
    simp only [busTeardown, Res.ok.injEq, Prod.mk.injEq] at hrun
    obtain ⟨rfl, rfl⟩ := hrun
    exact ⟨hp, weakens_refl h, keepLE_refl L x h,
      ⟨xr, hx, rfl, rfl, rfl, rfl, rfl, List.Sublist.refl _⟩, rfl⟩
  | cons b t ih =>
    intro h hres tr xr hp hx hxl hab hrun
    have habb : BusAbove h L b := hab b (List.mem_cons_self _ _)
    have hxb : x ≠ b := by
      intro he
      obtain ⟨b2, he2, hlv⟩ := habb _ (he ▸ hx)
      cases he2
      omega
    simp only [busTeardown] at hrun
    cases hfi : finishF fuel h b with
    | err e => simp [hfi, tbind] at hrun
    | nofuel => simp [hfi, tbind] at hrun
    | ok p1 =>
      obtain ⟨h1, t1⟩ := p1
      -- b is present (else finish errs) and is a bus above L
      obtain ⟨b2, hb2⟩ : ∃ b2, hlookup h b = some (Obj.bus b2) := by
        cases fuel with
        | zero => simp [finishF] at hfi
        | succ f =>
          cases hl : hlookup h b with
          | none => simp [finishF, hl] at hfi
          | some o =>
            obtain ⟨bb, rfl, -⟩ := habb o hl
            exact ⟨bb, rfl⟩
      obtain ⟨b2', he2, hgt⟩ := habb _ hb2
      cases he2
      obtain ⟨trest, rfl⟩ := finish_bus_trace fuel h b h1 t1
        (fun o ho => (habb o ho).imp (fun _ hh => hh.1)) hfi
      have htd1 := ((IH h b h1 _ hp).2.1 hfi)
      obtain ⟨hw1, -, hkc1⟩ := htd1
      have hK1 : KeepLE b2.level b h h1 := hkc1 b2 hb2
      have hk1 : KeepLE L x h h1 := keepLE_transfer L x b b2 h h1 hb2 hgt hK1
      obtain ⟨xr1, hx1, e11, e12, e13, e14, e15, s1⟩ :=
        hK1 x xr hxb hx (by omega)
      have hp1 : levelSoundP h1 := levelSoundP_weakens hp hw1
      simp only [hfi, tbind] at hrun
      cases hsb : setBusF h1 b none with
      | err e => simp [hsb, liftT] at hrun
      | nofuel => simp [hsb, liftT] at hrun
      | ok h1s =>
        -- analyze the setBus step: b is still a bus in h1
        obtain ⟨b3, hb3, h1seq⟩ : ∃ b3, hlookup h1 b = some (Obj.bus b3) ∧
            h1s = hset h1 b (Obj.bus { b3 with busRef := none }) := by
          cases hl : hlookup h1 b with
          | none => simp [setBusF, hl] at hsb
          | some o =>
            cases o with
            | intf io =>
              obtain ⟨o0, ho0, how⟩ := hw1 b _ hl
              rw [hb2] at ho0
              cases Option.some.inj ho0
              exact absurd how (by simp [objWeak])
            | bus b3 =>
              simp only [setBusF, hl, Option.isSome_none, Bool.and_false,
                Bool.false_eq_true, if_false, Res.ok.injEq] at hsb
              exact ⟨b3, rfl, hsb.symm⟩
        have hb3lv : b3.level = b2.level := by
          obtain ⟨o0, ho0, how⟩ := hw1 b _ hb3
          rw [hb2] at ho0
          cases Option.some.inj ho0
          exact how.1
        have hw1s : WeakensTo h1 h1s := by
          rw [h1seq]
          exact weakens_hset h1 b _ _ hb3
            ⟨rfl, List.Sublist.refl _, List.Sublist.refl _, List.Sublist.refl _⟩
        have hk1s : KeepLE L x h1 h1s := by
          intro y boy hyx hy hle
          have hyb : y ≠ b := by
            intro he
            subst he
            rw [hb3] at hy
            cases Option.some.inj hy
            omega
          exact ⟨boy, by rw [h1seq, hlookup_hset_ne h1 b y _ hyb]; exact hy,
            rfl, rfl, rfl, rfl, rfl, List.Sublist.refl _⟩
        have hx1s : hlookup h1s x = some (Obj.bus xr1) := by
          rw [h1seq, hlookup_hset_ne h1 b x _ hxb]
          exact hx1
        have hp1s : levelSoundP h1s := levelSoundP_weakens hp1 hw1s
        simp only [hsb, liftT, tbind] at hrun
        cases hur : unrefF fuel h1s b with
        | err e => simp [hur] at hrun
        | nofuel => simp [hur] at hrun
        | ok p2 =>
          obtain ⟨h2, t2⟩ := p2
          have hb1s : hlookup h1s b = some (Obj.bus { b3 with busRef := none }) := by
            rw [h1seq]
            exact hlookup_hset_self h1 b _ _ hb3
          have htd2 := ((IH h1s b h2 _ hp1s).1 hur)
          obtain ⟨hw2, -, hkc2⟩ := htd2
          have hK2 : KeepLE ({ b3 with busRef := none } : BusObj).level b h1s h2 :=
            hkc2 _ hb1s
          have hk2 : KeepLE L x h1s h2 := by
            refine keepLE_transfer L x b _ h1s h2 hb1s ?_ hK2
            simp only [hb3lv]
            exact hgt
          obtain ⟨xr2, hx2, f11, f12, f13, f14, f15, s2⟩ :=
            hK2 x xr1 hxb hx1s (by simp only [hb3lv]; omega)
          have hp2 : levelSoundP h2 := levelSoundP_weakens hp1s hw2
          simp only [hur] at hrun
          cases hrec : busTeardown (finishF fuel) (unrefF fuel) h2 t with
          | err e => simp [hrec] at hrun
          | nofuel => simp [hrec] at hrun
          | ok p3 =>
            obtain ⟨h3, t3⟩ := p3
            simp only [hrec, Res.ok.injEq, Prod.mk.injEq] at hrun
            obtain ⟨rfl, rfl⟩ := hrun
            have hw12 := weakens_trans hw1 (weakens_trans hw1s hw2)
            obtain ⟨hp3, hw3, hk3, ⟨xr3, hx3, g11, g12, g13, g14, g15, s3⟩, hshape⟩ :=
              ih h2 h3 t3 xr2 hp2 hx2
                (by rw [f11, e11, hxl])
                (fun bb hbb => busAbove_weakens (hab bb (List.mem_cons_of_mem _ hbb)) hw12)
                hrec
            refine ⟨hp3, weakens_trans hw12 hw3,
              keepLE_trans hk1 (keepLE_trans hk1s (keepLE_trans hk2 hk3)),
              ⟨xr3, hx3, by rw [g11, f11, e11], by rw [g12, f12, e12],
                by rw [g13, f13, e13], by rw [g14, f14, e14], by rw [g15, f15, e15],
                (s3.trans s2).trans s1⟩, ?_⟩
            refine ⟨trest ++ t2, t3, ?_, hshape⟩
            simp
/-- Frame for a heap change that touches only `x` itself. -/
theorem keepLE_of_only_x (L : Int) (x : Nat) (h h' : Heap)
    (hother : ∀ y, y ≠ x → hlookup h' y = hlookup h y) : KeepLE L x h h' :=
  fun y bo hyx hy _ => ⟨bo, by rw [hother y hyx]; exact hy, rfl, rfl, rfl, rfl, rfl,
    List.Sublist.refl _⟩

/-- Full description of a successful `reset()` on an Active bus, given
the master invariant one fuel level down: the final record is Cleared
with empty collections, every bus at or below this level (other than
this bus) keeps its observable state, and the event trace is exactly
the three-pass slot order followed by one block per subordinate in
reverse stored order. -/
theorem reset_phases (f : Nat) (IH : MasterAt f) (h : Heap) (x : Nat) (bo : BusObj)
    (h' : Heap) (t : List Nat)
    (hp : levelSoundP h) (hl : hlookup h x = some (Obj.bus bo))
    (hact : bo.status = Status.active)
    (hrun : resetF (f + 1) h x = Res.ok (h', t)) :
    levelSoundP h' ∧ WeakensTo h h' ∧ KeepLE bo.level x h h' ∧
      (∃ xr', hlookup h' x = some (Obj.bus xr') ∧ xr'.level = bo.level ∧
        xr'.status = Status.cleared ∧ xr'.cleared = bo.cleared ∧
        xr'.intfs = [] ∧ xr'.buses = [] ∧ xr'.siblings = []) ∧
      (∃ tsub, t = passIds bo.intfs ++ tsub ∧ subTraceShape bo.buses.reverse tsub) := by
  have hsibmem : ∀ p ∈ bo.siblings, p ≠ x := fun p hpm =>
    (((hp.1 x bo hl).2.1) p hpm).1
  have hslotNB : ∀ q ∈ bo.intfs, NotBus h q.2 := by
    intro q hq b2 hb2
    obtain ⟨io, hio⟩ := ((hp.1 x bo hl).2.2) q hq _ hb2
    exact Obj.noConfusion hio
  have hsubAb : ∀ bb ∈ bo.buses, BusAbove h bo.level bb := by
    intro bb hbb o ho
    exact ((hp.1 x bo hl).1) bb hbb o ho
  set bo0 : BusObj := { bo with status := Status.clearing } with hbo0
  have hw00 : WeakensTo h (hset h x (Obj.bus bo0)) :=
    weakens_hset h x _ _ hl ⟨rfl, List.Sublist.refl _, List.Sublist.refl _, List.Sublist.refl _⟩
  have hx0 : hlookup (hset h x (Obj.bus bo0)) x = some (Obj.bus bo0) :=
    hlookup_hset_self h x _ _ hl
  have hk00 : ∀ L, KeepLE L x h (hset h x (Obj.bus bo0)) := fun L =>
    keepLE_of_only_x L x h _ (fun y hy => hlookup_hset_ne h x y _ hy)
  have hp0 : levelSoundP (hset h x (Obj.bus bo0)) := levelSoundP_weakens hp hw00
  simp only [resetF, hl, if_pos hact] at hrun
  cases hph1 : seqFoldP (fun hh p => removeSiblingBusF hh p x)
      (hset h x (Obj.bus bo0)) bo.siblings with
  | err e => simp [hph1, liftT, tbind] at hrun
  | nofuel => simp [hph1, liftT, tbind] at hrun
  | ok h1 =>
    obtain ⟨hp1, hw1, hk1, hx1⟩ := sibPhase_spec x bo.siblings _ h1 hp0 hsibmem hph1
    rw [hx0] at hx1
    simp only [hph1, liftT, tbind] at hrun
    have hmod2 : modifyBus h1 x (fun r => { r with siblings := [] }) =
        Res.ok (hset h1 x (Obj.bus { bo0 with siblings := [] })) := by
      simp [modifyBus, hx1]
    simp only [hmod2] at hrun
    set bo2 : BusObj := { bo0 with siblings := [] } with hbo2
    set h2 : Heap := hset h1 x (Obj.bus bo2) with hh2
    have hx2 : hlookup h2 x = some (Obj.bus bo2) := hlookup_hset_self h1 x _ _ hx1
    have hw2 : WeakensTo h1 h2 :=
      weakens_hset h1 x _ _ hx1 ⟨rfl, List.Sublist.refl _, List.nil_sublist _,
        List.Sublist.refl _⟩
    have hk2 : ∀ L, KeepLE L x h1 h2 := fun L =>
      keepLE_of_only_x L x h1 h2 (fun y hy => hlookup_hset_ne h1 x y _ hy)
    have hp2 : levelSoundP h2 := levelSoundP_weakens hp1 hw2
    simp only [hx2] at hrun
    have hwh2 : WeakensTo h h2 := weakens_trans hw00 (weakens_trans hw1 hw2)
    cases hph3 : passLoop (finishF f) bo2.intfs h2 with
    | err e => simp [hph3, tbind] at hrun
    | nofuel => simp [hph3, tbind] at hrun
    | ok p3 =>
      obtain ⟨h3, tr1⟩ := p3
      have hnb2 : ∀ q ∈ bo2.intfs, NotBus h2 q.2 := by
        intro q hq
        exact notBus_weakens (hslotNB q hq) hwh2
      have hnx2 : ∀ q ∈ bo2.intfs, q.2 ≠ x := by
        intro q hq he
        exact (hnb2 q hq) bo2 (he ▸ hx2)
      obtain ⟨hp3, hw3, hk3, hx3, htr1⟩ := passLoop_spec f x bo2.intfs h2 h3 tr1 hp2
        hnb2 hnx2 hph3
      rw [hx2] at hx3
      simp only [hph3, tbind, hx3] at hrun
      cases hph4 : slotRelease (unrefF f) h3 (bo2.intfs.map Prod.snd) with
      | err e => simp [hph4] at hrun
      | nofuel => simp [hph4] at hrun
      | ok p4 =>
        obtain ⟨h4, tr2⟩ := p4
        have hnb3 : ∀ i ∈ bo2.intfs.map Prod.snd, NotBus h3 i := by
          intro i hi
          obtain ⟨q, hq, rfl⟩ := List.mem_map.mp hi
          exact notBus_weakens (hnb2 q hq) hw3
        have hnx3 : ∀ i ∈ bo2.intfs.map Prod.snd, i ≠ x := by
          intro i hi
          obtain ⟨q, hq, rfl⟩ := List.mem_map.mp hi
          exact hnx2 q hq
        obtain ⟨hp4, hw4, hk4, hx4, htr2⟩ := slotRelease_spec f x (bo2.intfs.map Prod.snd)
          h3 h4 tr2 hp3 hnb3 hnx3 hph4
        rw [hx3] at hx4
        simp only [hph4, tbind] at hrun
        have hmod5 : modifyBus h4 x (fun r => { r with intfs := [] }) =
            Res.ok (hset h4 x (Obj.bus { bo2 with intfs := [] })) := by
          simp [modifyBus, hx4]
        simp only [hmod5, liftT] at hrun
        set bo5 : BusObj := { bo2 with intfs := [] } with hbo5
        set h5 : Heap := hset h4 x (Obj.bus bo5) with hh5
        have hx5 : hlookup h5 x = some (Obj.bus bo5) := hlookup_hset_self h4 x _ _ hx4
        have hw5 : WeakensTo h4 h5 :=
          weakens_hset h4 x _ _ hx4 ⟨rfl, List.Sublist.refl _, List.Sublist.refl _,
            List.nil_sublist _⟩
        have hk5 : ∀ L, KeepLE L x h4 h5 := fun L =>
          keepLE_of_only_x L x h4 h5 (fun y hy => hlookup_hset_ne h4 x y _ hy)
        have hp5 : levelSoundP h5 := levelSoundP_weakens hp4 hw5
        simp only [hx5] at hrun
        have hwh5 : WeakensTo h h5 :=
          weakens_trans hwh2 (weakens_trans hw3 (weakens_trans hw4 hw5))
        cases hph6 : busTeardown (finishF f) (unrefF f) h5 bo5.buses.reverse with
        | err e => simp [hph6, tbind] at hrun
        | nofuel => simp [hph6, tbind] at hrun
        | ok p6 =>
          obtain ⟨h6, tsub⟩ := p6
          have hab5 : ∀ bb ∈ bo5.buses.reverse, BusAbove h5 bo5.level bb := by
            intro bb hbb
            exact busAbove_weakens (hsubAb bb (List.mem_reverse.mp hbb)) hwh5
          obtain ⟨hp6, hw6, hk6, ⟨xr6, hx6, e61, e62, e63, e64, e65, s6⟩, hshape⟩ :=
            busTeardown_spec f IH x bo5.level bo5.buses.reverse h5 h6 tsub bo5 hp5
              hx5 rfl hab5 hph6
          simp only [hph6, tbind] at hrun
          have hmod7 : modifyBus h6 x (fun r => { r with buses := [] }) =
              Res.ok (hset h6 x (Obj.bus { xr6 with buses := [] })) := by
            simp [modifyBus, hx6]
          simp only [hmod7, liftT] at hrun
          have hx7 : hlookup (hset h6 x (Obj.bus { xr6 with buses := [] })) x =
              some (Obj.bus { xr6 with buses := [] }) := hlookup_hset_self h6 x _ _ hx6
          have hmod8 : modifyBus (hset h6 x (Obj.bus { xr6 with buses := [] })) x
              (fun r => { r with status := Status.cleared }) =
              Res.ok (hset (hset h6 x (Obj.bus { xr6 with buses := [] })) x
                (Obj.bus { xr6 with buses := [], status := Status.cleared })) := by
            simp [modifyBus, hx7]
          simp only [hmod8, liftT, hset_hset_same, Res.ok.injEq, Prod.mk.injEq] at hrun
          obtain ⟨hfin, htr⟩ := hrun
          subst hfin
          set hF : Heap := hset h6 x (Obj.bus { xr6 with buses := [], status := Status.cleared })
            with hhF
          have hw7 : WeakensTo h6 hF :=
            weakens_hset h6 x _ _ hx6 ⟨rfl, List.nil_sublist _, List.Sublist.refl _,
              List.Sublist.refl _⟩
          have hk7 : ∀ L, KeepLE L x h6 hF := fun L =>
            keepLE_of_only_x L x h6 hF (fun y hy => hlookup_hset_ne h6 x y _ hy)
          have hxF : hlookup hF x =
              some (Obj.bus { xr6 with buses := [], status := Status.cleared }) :=
            hlookup_hset_self h6 x _ _ hx6
          refine ⟨levelSoundP_weakens hp6 hw7,
            weakens_trans hwh5 (weakens_trans hw6 hw7), ?_, ?_, ?_⟩
          · exact keepLE_trans (hk00 bo.level) (keepLE_trans (hk1 bo.level)
              (keepLE_trans (hk2 bo.level) (keepLE_trans (hk3 bo.level)
              (keepLE_trans (hk4 bo.level) (keepLE_trans (hk5 bo.level)
              (keepLE_trans hk6 (hk7 bo.level)))))))
          · exact ⟨{ xr6 with buses := [], status := Status.cleared }, hxF, e61, rfl,
              e63, e64, rfl, List.sublist_nil.mp s6⟩
          · refine ⟨tsub, ?_, ?_⟩
            · rw [← htr, htr1, htr2]
              simp [passIds]
            · simpa using hshape
/-- The master invariant holds at every fuel. -/
theorem td_master : ∀ fuel, MasterAt fuel := by
  intro fuel
  induction fuel with
  | zero =>
    intro h x h' t hp
    refine ⟨?_, ?_, ?_⟩ <;> intro hrun <;> simp [unrefF, finishF, resetF] at hrun
  | succ f IH =>
    intro h x h' t hp
    refine ⟨?_, ?_, ?_⟩
    · -- unrefF
      intro hrun
      cases hl : hlookup h x with
      | none => simp [unrefF, hl] at hrun
      | some o =>
        cases o with
        | intf io =>
          obtain ⟨-, hw, hother⟩ := unref_intf_step (f + 1) h x h' t
            (fun b2 hb2 => by rw [hl] at hb2; exact Obj.noConfusion (Option.some.inj hb2)) hrun
          refine ⟨hw, fun io2 hio2 y hy => hother y hy, fun bo hbo => ?_⟩
          rw [hl] at hbo
          exact absurd (Option.some.inj hbo) (by simp)
        | bus bo =>
          by_cases h0 : bo.rc = 0
          · simp [unrefF, hl, rcOf, h0] at hrun
          · by_cases h1c : bo.rc = 1
            · simp only [unrefF, hl, rcOf, if_neg h0, if_pos h1c, setRc] at hrun
              cases hrs : resetF f (hset h x (Obj.bus { bo with rc := 0 })) x with
              | err e => simp [hrs, tbind] at hrun
              | nofuel => simp [hrs, tbind] at hrun
              | ok p1 =>
                obtain ⟨h1, t1⟩ := p1
                simp only [hrs, tbind, Res.ok.injEq, Prod.mk.injEq] at hrun
                obtain ⟨rfl, rfl⟩ := hrun
                have hw0 : WeakensTo h (hset h x (Obj.bus { bo with rc := 0 })) :=
                  weakens_hset h x _ _ hl ⟨rfl, List.Sublist.refl _, List.Sublist.refl _,
                    List.Sublist.refl _⟩
                have hx0 : hlookup (hset h x (Obj.bus { bo with rc := 0 })) x =
                    some (Obj.bus { bo with rc := 0 }) := hlookup_hset_self h x _ _ hl
                have hp0 := levelSoundP_weakens hp hw0
                obtain ⟨hw1, -, hkc⟩ := (IH _ x h1 t1 hp0).2.2 hrs
                have hk1 : KeepLE bo.level x (hset h x (Obj.bus { bo with rc := 0 })) h1 :=
                  hkc { bo with rc := 0 } hx0
                refine ⟨weakens_trans hw0 (weakens_trans hw1 (weakens_hremove h1 x)),
                  fun io2 hio2 => ?_, fun bo2 hbo2 => ?_⟩
                · rw [hl] at hio2
                  exact absurd (Option.some.inj hio2) (by simp)
                · rw [hl] at hbo2
                  cases Option.some.inj hbo2
                  have hk0 : KeepLE bo.level x h (hset h x (Obj.bus { bo with rc := 0 })) :=
                    keepLE_of_only_x _ x h _ (fun y hy => hlookup_hset_ne h x y _ hy)
                  have hk2 : KeepLE bo.level x h1 (hremove h1 x) :=
                    keepLE_of_only_x _ x h1 _ (fun y hy => hlookup_hremove_ne h1 x y hy)
                  exact keepLE_trans hk0 (keepLE_trans hk1 hk2)
            · simp only [unrefF, hl, rcOf, if_neg h0, if_neg h1c, setRc, Res.ok.injEq,
                Prod.mk.injEq] at hrun
              obtain ⟨rfl, rfl⟩ := hrun
              refine ⟨weakens_hset h x _ _ hl ⟨rfl, List.Sublist.refl _,
                List.Sublist.refl _, List.Sublist.refl _⟩,
                fun io2 hio2 => ?_, fun bo2 hbo2 => ?_⟩
              · rw [hl] at hio2
                exact absurd (Option.some.inj hio2) (by simp)
              · exact keepLE_of_only_x _ x h _ (fun y hy => hlookup_hset_ne h x y _ hy)
    · -- finishF
      intro hrun
      cases hl : hlookup h x with
      | none => simp [finishF, hl] at hrun
      | some o =>
        cases o with
        | intf io =>
          obtain ⟨-, hw, hother⟩ := finish_intf_step (f + 1) h x h' t
            (fun b2 hb2 => by rw [hl] at hb2; exact Obj.noConfusion (Option.some.inj hb2)) hrun
          refine ⟨hw, fun io2 hio2 y hy => hother y hy, fun bo hbo => ?_⟩
          rw [hl] at hbo
          exact absurd (Option.some.inj hbo) (by simp)
        | bus bo =>
          by_cases hcl : bo.cleared
          · simp only [finishF, hl, if_pos hcl, Res.ok.injEq, Prod.mk.injEq] at hrun
            obtain ⟨rfl, rfl⟩ := hrun
            refine ⟨weakens_refl h, fun io2 hio2 y hy => rfl, fun bo2 hbo2 => ?_⟩
            exact keepLE_refl _ x h
          · simp only [finishF, hl, if_neg hcl] at hrun
            cases hrs : resetF f (hset h x (Obj.bus { bo with cleared := true, busRef := none })) x with
            | err e => simp [hrs] at hrun
            | nofuel => simp [hrs] at hrun
            | ok p1 =>
              obtain ⟨h1, t1⟩ := p1
              simp only [hrs, Res.ok.injEq, Prod.mk.injEq] at hrun
              obtain ⟨rfl, rfl⟩ := hrun
              have hw0 : WeakensTo h (hset h x (Obj.bus { bo with cleared := true, busRef := none })) :=
                weakens_hset h x _ _ hl ⟨rfl, List.Sublist.refl _, List.Sublist.refl _,
                  List.Sublist.refl _⟩
              have hx0 : hlookup (hset h x (Obj.bus { bo with cleared := true, busRef := none })) x =
                  some (Obj.bus { bo with cleared := true, busRef := none }) :=
                hlookup_hset_self h x _ _ hl
              have hp0 := levelSoundP_weakens hp hw0
              obtain ⟨hw1, -, hkc⟩ := (IH _ x h1 t1 hp0).2.2 hrs
              have hk1 : KeepLE bo.level x
                  (hset h x (Obj.bus { bo with cleared := true, busRef := none })) h1 :=
                hkc { bo with cleared := true, busRef := none } hx0
              refine ⟨weakens_trans hw0 hw1, fun io2 hio2 => ?_, fun bo2 hbo2 => ?_⟩
              · rw [hl] at hio2
                exact absurd (Option.some.inj hio2) (by simp)
              · rw [hl] at hbo2
                cases Option.some.inj hbo2
                have hk0 : KeepLE bo.level x h
                    (hset h x (Obj.bus { bo with cleared := true, busRef := none })) :=
                  keepLE_of_only_x _ x h _ (fun y hy => hlookup_hset_ne h x y _ hy)
                exact keepLE_trans hk0 hk1
    · -- resetF
      intro hrun
      cases hl : hlookup h x with
      | none => simp [resetF, hl] at hrun
      | some o =>
        cases o with
        | intf io => simp [resetF, hl] at hrun
        | bus bo =>
          by_cases hact : bo.status = Status.active
          · obtain ⟨hpF, hwF, hkF, -, -⟩ := reset_phases f IH h x bo h' t hp hl hact hrun
            refine ⟨hwF, fun io2 hio2 => ?_, fun bo2 hbo2 => ?_⟩
            · rw [hl] at hio2
              exact absurd (Option.some.inj hio2) (by simp)
            · rw [hl] at hbo2
              cases Option.some.inj hbo2
              exact hkF
          · simp only [resetF, hl, if_neg hact, Res.ok.injEq, Prod.mk.injEq] at hrun
            obtain ⟨rfl, rfl⟩ := hrun
            exact ⟨weakens_refl h, fun io2 hio2 y hy => rfl, fun bo2 hbo2 => keepLE_refl _ x h⟩
/-- C2 (amended): on an Active, not-yet-finished bus in a well-formed
heap, `finish()` performs the teardown: siblings are notified (their
finished flags untouched), the three slot passes 0,1,2 run in reverse
insertion order within each pass, slots are detached/unref'd and the
slot vector emptied, then every subordinate bus is finished, detached
and unref'd **in reverse stored (level-sorted) order** — not reverse
insertion order — and finally the status becomes Cleared with empty
slot, subordinate and sibling collections and `finished()` true, while
no sibling bus's finished flag is affected.  The event trace is
exactly: this bus's own `finish`, the pass-ordered slot finishes, and
one block per subordinate in reverse stored order. -/
theorem c2_teardown_amended (fuel : Nat) (h : Heap) (x : Nat) (bo : BusObj)
    (h' : Heap) (tr : List Nat)
    (hwf : levelSoundB h = true)
    (hx : hlookup h x = some (Obj.bus bo))
    (hact : bo.status = Status.active) (hncl : bo.cleared = false)
    (hrun : finishF (fuel + 2) h x = Res.ok (h', tr)) :
    (∃ bo', hlookup h' x = some (Obj.bus bo') ∧ bo'.status = Status.cleared ∧
      bo'.cleared = true ∧ bo'.intfs = [] ∧ bo'.buses = [] ∧ bo'.siblings = []) ∧
    finishedF h' x = Res.ok true ∧
    (∀ s so, s ∈ bo.siblings → hlookup h s = some (Obj.bus so) →
      ∃ so', hlookup h' s = some (Obj.bus so') ∧ so'.cleared = so.cleared) ∧
    (∃ tsub, tr = x :: (passIds bo.intfs ++ tsub) ∧
      subTraceShape bo.buses.reverse tsub) := by
  have hp := levelSoundP_of_B h hwf
  have hnclF : ¬bo.cleared = true := by rw [hncl]; exact Bool.false_ne_true
  simp only [finishF, hx, if_neg hnclF] at hrun
  cases hrs : resetF (fuel + 1)
      (hset h x (Obj.bus { bo with cleared := true, busRef := none })) x with
  | err e => simp [hrs] at hrun
  | nofuel => simp [hrs] at hrun
  | ok p1 =>
    obtain ⟨h1, t1⟩ := p1
    simp only [hrs, Res.ok.injEq, Prod.mk.injEq] at hrun
    obtain ⟨rfl, rfl⟩ := hrun
    have hw0 : WeakensTo h (hset h x (Obj.bus { bo with cleared := true, busRef := none })) :=
      weakens_hset h x _ _ hx ⟨rfl, List.Sublist.refl _, List.Sublist.refl _,
        List.Sublist.refl _⟩
    have hx0 : hlookup (hset h x (Obj.bus { bo with cleared := true, busRef := none })) x =
        some (Obj.bus { bo with cleared := true, busRef := none }) :=
      hlookup_hset_self h x _ _ hx
    have hp0 := levelSoundP_weakens hp hw0
    obtain ⟨hpF, hwF, hkF, ⟨bo', hxF, g1, g2, g3, g4, g5, g6⟩, ⟨tsub, htr, hshape⟩⟩ :=
      reset_phases fuel (td_master fuel) _ x { bo with cleared := true, busRef := none }
        h1 t1 hp0 hx0 hact hrs
    refine ⟨⟨bo', hxF, g2, g3, g4, g5, g6⟩, ?_, ?_, ⟨tsub, by rw [htr], hshape⟩⟩
    · simp only [finishedF, hxF, g3]
    · intro s so hsm hso
      obtain ⟨hsnex, -⟩ := (hp.1 x bo hx).2.1 s hsm
      obtain ⟨co, he, hlv⟩ := ((hp.1 x bo hx).2.1 s hsm).2 _ hso
      obtain rfl : so = co := Obj.bus.inj he
      have hs0 : hlookup (hset h x (Obj.bus { bo with cleared := true, busRef := none })) s =
          some (Obj.bus so) := by
        rw [hlookup_hset_ne h x s _ hsnex]
        exact hso
      obtain ⟨so', hso', -, -, hcl', -, -, -⟩ := hkF s so hsnex hs0 (le_of_eq hlv)
      exact ⟨so', hso', hcl'⟩
/-- Three buses for the C2 counterexample: bus 0 (level 0), bus 1
(level 1), bus 2 (level 2); 1 and 2 hold an extra outside reference so
they survive the teardown for inspection. -/
def c2m0 : Heap :=
  [(0, Obj.bus { level := 0, busRef := none, cleared := false, intfs := [], buses := [],
                 siblings := [], status := Status.active, rc := 1 }),
   (1, Obj.bus { level := 1, busRef := none, cleared := false, intfs := [], buses := [],
                 siblings := [], status := Status.active, rc := 2 }),
   (2, Obj.bus { level := 2, busRef := none, cleared := false, intfs := [], buses := [],
                 siblings := [], status := Status.active, rc := 2 })]

/-- `c2m0` after `bus0.connect(bus2)` — insertion order starts with
bus 2. -/
def c2m1 : Heap :=
  [(0, Obj.bus { level := 0, busRef := none, cleared := false, intfs := [], buses := [2],
                 siblings := [], status := Status.active, rc := 1 }),
   (1, Obj.bus { level := 1, busRef := none, cleared := false, intfs := [], buses := [],
                 siblings := [], status := Status.active, rc := 2 }),
   (2, Obj.bus { level := 2, busRef := none, cleared := false, intfs := [], buses := [],
                 siblings := [], status := Status.active, rc := 3 })]

/-- `c2m1` after `bus0.connect(bus1)` — bus 1 is inserted second, but
the vector is re-sorted ascending by level to `[1, 2]`. -/
def c2m2 : Heap :=
  [(0, Obj.bus { level := 0, busRef := none, cleared := false, intfs := [], buses := [1, 2],
                 siblings := [], status := Status.active, rc := 1 }),
   (1, Obj.bus { level := 1, busRef := none, cleared := false, intfs := [], buses := [],
                 siblings := [], status := Status.active, rc := 3 }),
   (2, Obj.bus { level := 2, busRef := none, cleared := false, intfs := [], buses := [],
                 siblings := [], status := Status.active, rc := 3 })]

/-- `c2m2` after `bus0.finish()`. -/
def c2mF : Heap :=
  [(0, Obj.bus { level := 0, busRef := none, cleared := true, intfs := [], buses := [],
                 siblings := [], status := Status.cleared, rc := 1 }),
   (1, Obj.bus { level := 1, busRef := none, cleared := true, intfs := [], buses := [],
                 siblings := [], status := Status.cleared, rc := 2 }),
   (2, Obj.bus { level := 2, busRef := none, cleared := true, intfs := [], buses := [],
                 siblings := [], status := Status.cleared, rc := 2 })]

/-- C2 counterexample: the subordinates were *inserted* in the order
bus 2, then bus 1, so the claimed "reverse insertion order" teardown
would finish bus 1 first (trace `[0, 1, 2]`).  The code instead walks
the level-sorted vector `[1, 2]` in reverse and finishes bus 2 first:
the actual trace is `[0, 2, 1]`. -/
theorem c2_counterexample :
    connectF 10 c2m0 0 2 0 = Res.ok (true, c2m1, []) ∧
    connectF 10 c2m1 0 1 0 = Res.ok (true, c2m2, []) ∧
    finishF 10 c2m2 0 = Res.ok (c2mF, [0, 2, 1]) ∧
    ([0, 2, 1] : List Nat) ≠ [0, 1, 2] :=
  ⟨by decide, by decide, by decide, by decide⟩

/-- Bus record for the C2 witness: two slots (priorities 1 and 0), one
subordinate (bus 3), one sibling (bus 1). -/
def c2wbus : BusObj :=
  { level := 0, busRef := none, cleared := false, intfs := [(1, 2), (0, 5)],
    buses := [3], siblings := [1], status := Status.active, rc := 1 }

def c2wH : Heap :=
  [(0, Obj.bus c2wbus),
   (1, Obj.bus { level := 0, busRef := none, cleared := false, intfs := [], buses := [],
                 siblings := [0], status := Status.active, rc := 1 }),
   (2, Obj.intf { iid := 100, bus := some 0, cleared := false, rc := 1 }),
   (5, Obj.intf { iid := 101, bus := some 0, cleared := false, rc := 1 }),
   (3, Obj.bus { level := 1, busRef := none, cleared := false, intfs := [], buses := [],
                 siblings := [], status := Status.active, rc := 1 })]

/-- `c2wH` after `bus0.finish()`: the slots and the subordinate were
destroyed, the sibling survives untouched. -/
def c2wHF : Heap :=
  [(0, Obj.bus { level := 0, busRef := none, cleared := true, intfs := [], buses := [],
                 siblings := [], status := Status.cleared, rc := 1 }),
   (1, Obj.bus { level := 0, busRef := none, cleared := false, intfs := [], buses := [],
                 siblings := [], status := Status.active, rc := 1 })]

/-- Witness for the amended C2 at a concrete heap. -/
theorem c2_witness :
    (∃ bo', hlookup c2wHF 0 = some (Obj.bus bo') ∧ bo'.status = Status.cleared ∧
      bo'.cleared = true ∧ bo'.intfs = [] ∧ bo'.buses = [] ∧ bo'.siblings = []) ∧
    finishedF c2wHF 0 = Res.ok true ∧
    (∀ s so, s ∈ c2wbus.siblings → hlookup c2wH s = some (Obj.bus so) →
      ∃ so', hlookup c2wHF s = some (Obj.bus so') ∧ so'.cleared = so.cleared) ∧
    (∃ tsub, ([0, 5, 2, 3] : List Nat) = 0 :: (passIds c2wbus.intfs ++ tsub) ∧
      subTraceShape c2wbus.buses.reverse tsub) :=
  c2_teardown_amended 8 c2wH 0 c2wbus c2wHF [0, 5, 2, 3] (by decide) rfl rfl rfl (by decide)
end XpUtil
